import Mathlib

/-!
# waitnsee: a shallow embedding of `src/waitnsee.c`

The supervisor is a single-threaded C program.  Its globals are gathered in a
`State` record that is passed explicitly; every call into the operating system
(`stat`, `fork`, `execvp`, `waitpid`, `kill`, `usleep`, writes to stderr) is
answered by an oracle `OS` and recorded in a chronological trace, so that a
run of the program is a pure function of the argument vector and the oracle.
`exit`, a failed `assert` and a successful `execvp` stop the program; they are
the `halt` outcomes of `Res`.
-/

namespace Waitnsee

/-- A C string: the bytes before the terminating NUL. -/
abbrev Str := List Char

/-! ## Platform constants and libc helpers -/

/-- Signal numbers of `<signal.h>` (Linux numbering). -/
def SIGHUP : Int := 1

/-- Signal number of SIGINT. -/
def SIGINT : Int := 2

/-- Signal number of SIGKILL. -/
def SIGKILL : Int := 9

/-- Signal number of SIGUSR1. -/
def SIGUSR1 : Int := 10

/-- Signal number of SIGUSR2. -/
def SIGUSR2 : Int := 12

/-- Signal number of SIGTERM. -/
def SIGTERM : Int := 15

/-- Conversion of an integer to the 32-bit `int` (wrap-around). -/
def toInt32 (x : Int) : Int := (x + 2 ^ 31) % 2 ^ 32 - 2 ^ 31

/-- The `isspace` of the C locale: space, \t, \n, \v, \f, \r. -/
def isspace (c : Char) : Bool :=
  c.toNat = 32 || (9 ≤ c.toNat && c.toNat ≤ 13)

/-- The `isdigit` of the C locale. -/
def isdigit (c : Char) : Bool :=
  48 ≤ c.toNat && c.toNat ≤ 57

/-- Value of the longest run of decimal digits at the start of the string,
accumulated onto `acc`. -/
def digits : Str → Nat → Nat
  | [], acc => acc
  | c :: cs, acc => if isdigit c then digits cs (acc * 10 + (c.toNat - 48)) else acc

/-- Clamp to the range of a 64-bit `long`, as `strtol` does on overflow. -/
def clampLong (x : Int) : Int :=
  if x < -(2 ^ 63) then -(2 ^ 63) else if 2 ^ 63 - 1 < x then 2 ^ 63 - 1 else x

/-- The part of `strtol(s, NULL, 10)` after the leading white space: an
optional sign followed by decimal digits; 0 when there is no digit. -/
def strtolSigned : Str → Int
  | '-' :: cs => clampLong (-(digits cs 0 : Int))
  | '+' :: cs => clampLong (digits cs 0)
  | cs => clampLong (digits cs 0)

/-- The libc `atoi`, which is `(int) strtol(s, NULL, 10)`. -/
def atoi (s : Str) : Int :=
  toInt32 (strtolSigned (s.dropWhile isspace))

/-- `WIFEXITED(status)` of `<sys/wait.h>`: the low seven bits are zero. -/
def WIFEXITED (status : Int) : Bool := status % 128 == 0

/-- `WEXITSTATUS(status)` of `<sys/wait.h>`: bits 8..15. -/
def WEXITSTATUS (status : Int) : Int := (status / 256) % 256

/-! ## Constants of the program -/

/-- Line 39. -/
def SLEEP_TIME_MICROSECS : Nat := 10000

/-- Line 47. -/
def ACTION_RESTART : Int := -1

/-- Line 55. -/
def MAX_WATCHES : Nat := 16

/-- Line 150. -/
def MAX_WAIT_MICROSECS : Nat := 5 * 1000000

/-- Lines 49-53. -/
structure Watch where
  path : Str
  sig : Int
  recent_mtime : Int
deriving DecidableEq, Repr

/-- Lines 60-72: `test(s)` compares with the mnemonic and with "SIG" followed
by the mnemonic. -/
def action_by_name (name : Str) : Int :=
  if name = "RESTART".toList then ACTION_RESTART
  else if name = "HUP".toList || name = "SIGHUP".toList then SIGHUP
  else if name = "INT".toList || name = "SIGINT".toList then SIGINT
  else if name = "KILL".toList || name = "SIGKILL".toList then SIGKILL
  else if name = "TERM".toList || name = "SIGTERM".toList then SIGTERM
  else if name = "USR1".toList || name = "SIGUSR1".toList then SIGUSR1
  else if name = "USR2".toList || name = "SIGUSR2".toList then SIGUSR2
  else atoi name

/-! ## The operating system and the program state -/

/-- Answer of `stat(path, &buf)`. -/
inductive StatResult
  /-- The call returned 0 and `buf.st_mtime` holds the given value. -/
  | ok (st_mtime : Int)
  /-- The call failed with `errno == ENOENT`. -/
  | enoent
  /-- The call failed with another `errno`. -/
  | error
deriving DecidableEq, Repr

/-- Answer of `waitpid(childpid, &status, WNOHANG)`: the return value and the
contents of the local `status` after the call (whatever it holds when the
call did not write it). -/
structure WaitAnswer where
  ret : Int
  status : Int
deriving DecidableEq, Repr

/-- The environment: the answer of the n-th call of each system call
(n counts the earlier calls of the same system call). -/
structure OS where
  /-- Answer of the n-th `stat`, for the path asked. -/
  stat : Nat → Str → StatResult
  /-- Return value of the n-th `fork`. -/
  fork : Nat → Int
  /-- Whether `execvp` of this command replaces the process image. -/
  execvp : List Str → Bool
  /-- Answer of the n-th `waitpid`. -/
  waitpid : Nat → WaitAnswer
  /-- Return value of the n-th `kill`, for the pid and signal given. -/
  kill : Nat → Int → Int → Int

/-- What the program does that can be observed from outside, in order. -/
inductive Event
  /-- Line 11. -/
  | usageMsg
  /-- Line 16. -/
  | perror (s : Str)
  /-- Lines 155 and 164. -/
  | signalling (sig pid : Int)
  /-- Line 169. -/
  | dot
  /-- Line 176. -/
  | exited (code : Int)
  | stat (path : Str) (r : StatResult)
  | fork (ret : Int)
  | execvp (cmd : List Str)
  | waitpid (pid : Int) (a : WaitAnswer)
  | kill (pid sig ret : Int)
  | usleep (us : Nat)
deriving DecidableEq, Repr

/-- How the program stops: `exit(code)`, a failed `assert`, or `execvp`
replacing the process image (in the forked child). -/
inductive Halt
  | exit (code : Int)
  | abort
  | exec
deriving DecidableEq, Repr

/-- The globals (`watches[0 .. watch_count-1]`, `childpid`, `SUBCOMMAND`), the
number of calls made so far of each system call, and the trace. -/
structure State where
  watches : List Watch
  childpid : Int
  SUBCOMMAND : Option (List Str)
  nstat : Nat
  nfork : Nat
  nwait : Nat
  nkill : Nat
  trace : List Event
deriving DecidableEq, Repr

/-- Line 58: `watch_count`. -/
def watch_count (s : State) : Nat := s.watches.length

/-- The state at program start: lines 57, 58, 123, 124. -/
def State.init : State :=
  { watches := [], childpid := 0, SUBCOMMAND := none,
    nstat := 0, nfork := 0, nwait := 0, nkill := 0, trace := [] }

/-- Result of running a piece of the program from a state. -/
inductive Res (α : Type)
  /-- It returned `a`. -/
  | ok (a : α) (s : State)
  /-- The program stopped. -/
  | halt (h : Halt) (s : State)
deriving DecidableEq, Repr

/-- The state at the end of the piece. -/
def Res.state {α : Type} : Res α → State
  | .ok _ s => s
  | .halt _ s => s

/-- Append an event to the trace. -/
def emit (e : Event) (s : State) : State :=
  { s with trace := s.trace ++ [e] }

/-- Lines 10-13. -/
def usage {α : Type} (s : State) : Res α :=
  .halt (.exit 1) (emit .usageMsg s)

/-- Lines 15-18. -/
def die {α : Type} (msg : Str) (s : State) : Res α :=
  .halt (.exit 127) (emit (.perror msg) s)

/-- Lines 25-32. The `int` result truncates `st_mtime`. -/
def mtime (os : OS) (path : Str) (s : State) : Res Int :=
  let r := os.stat s.nstat path
  let s1 := emit (.stat path r) { s with nstat := s.nstat + 1 }
  match r with
  | .ok t => .ok (toInt32 t) s1
  | .enoent => .ok (-1) s1
  | .error => die "stat".toList s1

/-! ## Watch registry -/

/-- `strrchr(s, c)` for `c` other than NUL: the index of the last `c`. -/
def strrchr : Str → Char → Option Nat
  | [], _ => none
  | x :: xs, c =>
    match strrchr xs c with
    | some i => some (i + 1)
    | none => if x = c then some 0 else none

/-- Assignment `watches[i].recent_mtime = m`. -/
def setMtime : List Watch → Nat → Int → List Watch
  | [], _, _ => []
  | w :: ws, 0, m => { w with recent_mtime := m } :: ws
  | w :: ws, i + 1, m => w :: setMtime ws i m

/-- Lines 74-91. The slot taken by `watch_count++` is in static storage, so
its `recent_mtime` is 0 until line 90 assigns it; `*colon++ = 0` cuts the
path at the last colon before `mtime` is called. -/
def register_watch (os : OS) (watch : Str) (s : State) : Res Unit :=
  if s.watches.length = MAX_WATCHES then
    die "Too many watches defined.".toList s
  else
    let path := match strrchr watch ':' with
      | some i => watch.take i
      | none => watch
    let sig := match strrchr watch ':' with
      | some i => action_by_name (watch.drop (i + 1))
      | none => SIGKILL
    let s1 := { s with watches := s.watches ++ [{ path := path, sig := sig, recent_mtime := 0 }] }
    match mtime os path s1 with
    | .ok m s2 => .ok () { s2 with watches := setMtime s2.watches s.watches.length m }
    | .halt h s2 => .halt h s2

/-- Lines 93-97, on the vector that follows the element `watches` points at:
`none` is a NULL entry; the vector always ends with one. -/
def registerAll (os : OS) : List (Option Str) → State → Res Unit
  | [], s => .ok () s
  | none :: _, s => .ok () s
  | some w :: rest, s =>
    match register_watch os w s with
    | .ok _ s1 => registerAll os rest s1
    | .halt h s1 => .halt h s1

/-- Lines 93-97: `watches` is the index into the argument vector `vec` that
the pointer argument has; `*++watches` skips the element it points at. -/
def parse_and_register_watches (os : OS) (vec : List (Option Str)) (watches : Nat)
    (s : State) : Res Unit :=
  registerAll os (vec.drop (watches + 1)) s

/-! ## Change detection -/

/-- Lines 102-106, for `p_watch = watches + i`. -/
def run_watch (os : OS) (i : Nat) (s : State) : Res Bool :=
  match s.watches.get? i with
  | none => .ok false s
  | some w =>
    let recent_mtime := w.recent_mtime
    match mtime os w.path s with
    | .ok m s1 => .ok (recent_mtime != m) { s1 with watches := setMtime s1.watches i m }
    | .halt h s1 => .halt h s1

/-- The loop of lines 113-115 with `p_watch = watches + i` and `n` entries
left up to `watches + watch_count`. -/
def run_watches_from (os : OS) : Nat → Nat → State → Res (Option Nat)
  | 0, _, s => .ok none s
  | n + 1, i, s =>
    match run_watch os i s with
    | .ok true s1 => .ok (some i) s1
    | .ok false s1 => run_watches_from os n (i + 1) s1
    | .halt h s1 => .halt h s1

/-- Lines 111-118: the index of the first watch that changed, or `none`. -/
def run_watches (os : OS) (s : State) : Res (Option Nat) :=
  run_watches_from os (watch_count s) 0 s

/-! ## The child process -/

/-- Lines 126-138. `fork` returning 0 is the branch run by the child. -/
def child_process_start (os : OS) (s : State) : Res Unit :=
  match s.SUBCOMMAND with
  | none => .halt .abort s
  | some cmd =>
    let pid := os.fork s.nfork
    let s1 := emit (.fork pid) { s with childpid := pid, nfork := s.nfork + 1 }
    if pid = -1 then die "fork".toList s1
    else if pid = 0 then
      let s2 := emit (.execvp cmd) s1
      if os.execvp cmd then .halt .exec s2 else die (cmd.headD []) s2
    else .ok () s1

/-- Lines 140-148: -1 when `waitpid` returns 0, else the exit code read from
`status`. -/
def child_process_exitcode (os : OS) (s : State) : Res Int :=
  if 0 < s.childpid then
    let a := os.waitpid s.nwait
    let s1 := emit (.waitpid s.childpid a) { s with nwait := s.nwait + 1 }
    if a.ret = 0 then .ok (-1) s1
    else .ok (if WIFEXITED a.status then WEXITSTATUS a.status else 0) s1
  else .halt .abort s

/-- Lines 152-159. -/
def child_process_kill (os : OS) (sig : Int) (s : State) : Res Unit :=
  if 0 < s.childpid then
    let s1 := emit (.signalling sig s.childpid) s
    let r := os.kill s1.nkill s1.childpid sig
    let s2 := emit (.kill s1.childpid sig r) { s1 with nkill := s1.nkill + 1 }
    if r ≠ 0 then die "kill".toList s2 else .ok () s2
  else .halt .abort s

/-- The loop of lines 168-178, with `n` iterations left before `loops`
exceeds `MAX_WAIT_MICROSECS / SLEEP_TIME_MICROSECS`; falling out of the loop
is the `return -1` of line 180. -/
def kill_and_wait_loop (os : OS) : Nat → Nat → State → Res Int
  | 0, _, s => .ok (-1) s
  | n + 1, loops, s =>
    let s1 := if loops % 100000 = 0 then emit .dot s else s
    let s2 := emit (.usleep SLEEP_TIME_MICROSECS) s1
    match child_process_exitcode os s2 with
    | .ok exitcode s3 =>
      if exitcode < 0 then kill_and_wait_loop os n (loops + 1) s3
      else .ok exitcode (emit (.exited exitcode) s3)
    | .halt h s3 => .halt h s3

/-- Lines 161-181. The result of `kill` is not looked at. -/
def child_process_kill_and_wait (os : OS) (sig : Int) (s : State) : Res Int :=
  if 0 < s.childpid then
    let s1 := emit (.signalling sig s.childpid) s
    let r := os.kill s1.nkill s1.childpid sig
    let s2 := emit (.kill s1.childpid sig r) { s1 with nkill := s1.nkill + 1 }
    kill_and_wait_loop os (MAX_WAIT_MICROSECS / SLEEP_TIME_MICROSECS) 1 s2
  else .halt .abort s

/-! ## main -/

/-- Lines 242-243: the right operand of `||` is evaluated when the left one
is 0; the value of the expression is dropped. -/
def restart (os : OS) (s : State) : Res Unit :=
  match child_process_kill_and_wait os SIGTERM s with
  | .halt h s1 => .halt h s1
  | .ok r s1 =>
    if r ≠ 0 then child_process_start os s1
    else
      match child_process_kill_and_wait os SIGKILL s1 with
      | .halt h s2 => .halt h s2
      | .ok _ s2 => child_process_start os s2

/-- Lines 240-248: the switch on `activated_watch->sig`. -/
def dispatch (os : OS) (sig : Int) (s : State) : Res Unit :=
  if sig = ACTION_RESTART then restart os s else child_process_kill os sig s

/-- Lines 224-248: one iteration of the loop of `main`. -/
def tick (os : OS) (s : State) : Res Unit :=
  match child_process_exitcode os s with
  | .halt h s1 => .halt h s1
  | .ok exitcode s1 =>
    if 0 ≤ exitcode then .halt (.exit exitcode) s1
    else
      match run_watches os (emit (.usleep SLEEP_TIME_MICROSECS) s1) with
      | .halt h s2 => .halt h s2
      | .ok none s2 => .ok () s2
      | .ok (some i) s2 =>
        match s2.watches.get? i with
        | none => .ok () s2
        | some activated_watch => dispatch os activated_watch.sig s2

/-- Lines 223-249, cut after `fuel` iterations: `ok` means that the loop is
still running after that many. -/
def loop (os : OS) : Nat → State → Res Unit
  | 0, s => .ok () s
  | fuel + 1, s =>
    match tick os s with
    | .ok _ s1 => loop os fuel s1
    | .halt h s1 => .halt h s1

/-- What the scan of lines 193-205 leaves: the argument vector from the
position scanned on (the separator overwritten by NULL), and the indices
that `watches` and `SUBCOMMAND` point at. -/
structure Scan where
  vec : List (Option Str)
  watches : Option Nat
  SUBCOMMAND : Option Nat
deriving DecidableEq, Repr

/-- Lines 193-205: `argv` has been incremented to index `i`, whose entry is
the head of the list; `watches` is the pointer set so far. -/
def scanArgs : List (Option Str) → Nat → Option Nat → Scan
  | [], _, watches => { vec := [], watches := watches, SUBCOMMAND := none }
  | none :: rest, _, watches => { vec := none :: rest, watches := watches, SUBCOMMAND := none }
  | some a :: rest, i, watches =>
    if a = "--".toList then
      { vec := none :: rest, watches := watches, SUBCOMMAND := some (i + 1) }
    else
      let r := scanArgs rest (i + 1) (if watches = none then some i else watches)
      { r with vec := some a :: r.vec }

/-- The strings of a NULL-terminated vector. -/
def strings : List (Option Str) → List Str
  | some a :: rest => a :: strings rest
  | _ => []

/-- Lines 188-211: argument parsing and registration of the watches.  The
argument vector is `argv` followed by its NULL entry; `SUBCOMMAND` has been
assigned by the scan (line 196) when `usage` is called. -/
def startup (os : OS) (argv : List Str) : Res Unit :=
  let vec0 := argv.map some ++ [none]
  let r := scanArgs (vec0.drop 1) 1 none
  let vec := vec0.take 1 ++ r.vec
  match r.watches, r.SUBCOMMAND with
  | some watches, some sub =>
    parse_and_register_watches os vec watches
      { State.init with SUBCOMMAND := some (strings (vec.drop sub)) }
  | _, some sub => usage { State.init with SUBCOMMAND := some (strings (vec.drop sub)) }
  | _, none => usage State.init

/-- Lines 187-252, with the loop cut after `fuel` iterations. -/
def main (os : OS) (argv : List Str) (fuel : Nat) : Res Unit :=
  match startup os argv with
  | .halt h s => .halt h s
  | .ok _ s =>
    match child_process_start os s with
    | .halt h s1 => .halt h s1
    | .ok _ s1 => loop os fuel s1


/-- The separator of the command line. -/
def sep : Str := "--".toList

/-! ## Events of a trace -/

/-- A signal was sent (or its sending attempted) with `kill`. -/
def Event.isKill : Event → Bool
  | .kill _ _ _ => true
  | _ => false

/-- A path was looked up with `stat`. -/
def Event.isStat : Event → Bool
  | .stat _ _ => true
  | _ => false


/-! ## Vocabulary of the statements -/

/-- Status word that `waitpid` stores for a child that called `exit(c)`. -/
def exitedStatus (c : Int) : Int := c * 256

/-- Status word that `waitpid` stores for a child terminated by the signal
`sig`, with (`core = 128`) or without (`core = 0`) a core dump. -/
def signaledStatus (sig core : Int) : Int := sig + core

/-- The token begins with a decimal integer as `strtol` reads one: optional
white space, an optional sign, then at least one digit. -/
def startsWithInteger (t : Str) : Bool :=
  match t.dropWhile isspace with
  | '-' :: c :: _ => isdigit c
  | '+' :: c :: _ => isdigit c
  | c :: _ => isdigit c
  | [] => false

/-- The value of a decimal numeral given by its digits, most significant
first. -/
def decimalValue : List Nat → Nat
  | [] => 0
  | d :: ds => d * 10 ^ ds.length + decimalValue ds

/-- The decimal digits at the start of the string, as numbers. -/
def leadingDigits (s : Str) : List Nat :=
  (s.takeWhile isdigit).map (fun c => c.toNat - 48)

/-- The decimal-integer parse of a token, as an integer of any size: leading
white space is skipped, an optional sign is read, and the value is that of
the decimal digits that follow (0 when there is none). -/
def decimalParse (t : Str) : Int :=
  match t.dropWhile isspace with
  | '-' :: cs => -(decimalValue (leadingDigits cs) : Int)
  | '+' :: cs => (decimalValue (leadingDigits cs) : Int)
  | cs => (decimalValue (leadingDigits cs) : Int)

/-- The action tokens that `action_by_name` knows by name. -/
def actionNames : List Str :=
  ["RESTART".toList, "HUP".toList, "SIGHUP".toList, "INT".toList, "SIGINT".toList,
   "KILL".toList, "SIGKILL".toList, "TERM".toList, "SIGTERM".toList, "USR1".toList,
   "SIGUSR1".toList, "USR2".toList, "SIGUSR2".toList]

/-- A state in which a child with pid 77 has been started for `sleep 100`
and no watch is registered. -/
def sRunning : State :=
  { State.init with childpid := 77, SUBCOMMAND := some ["sleep".toList, "100".toList],
                    nfork := 1, trace := [.fork 77] }

/-- An environment in which the child is reported running twice and then
reaped with exit status 42; no file exists. -/
def osExit42 : OS where
  stat := fun _ _ => .enoent
  fork := fun n => 77 + n
  execvp := fun _ => true
  waitpid := fun n => if n < 2 then { ret := 0, status := 0 } else { ret := 77, status := exitedStatus 42 }
  kill := fun _ _ _ => 0

/-- An environment in which the files are present with modification time 100. -/
def osFiles : OS where
  stat := fun _ _ => .ok 100
  fork := fun n => 77 + n
  execvp := fun _ => true
  waitpid := fun _ => { ret := 0, status := 0 }
  kill := fun _ _ _ => 0

/-! ## Traces -/

/-- The kinds of events. -/
inductive Kind
  | msg
  | stat
  | fork
  | execvp
  | waitpid
  | kill
  | usleep
deriving DecidableEq, Repr

/-- The kind of an event; what is written to stderr is a message. -/
def Event.kind : Event → Kind
  | .usageMsg => .msg
  | .perror _ => .msg
  | .signalling _ _ => .msg
  | .dot => .msg
  | .exited _ => .msg
  | .stat _ _ => .stat
  | .fork _ => .fork
  | .execvp _ => .execvp
  | .waitpid _ _ => .waitpid
  | .kill _ _ _ => .kill
  | .usleep _ => .usleep

/-- The trace of `s2` is the trace of `s1` followed by events whose kinds
are all among `ks`. -/
def Adds (ks : List Kind) (s1 s2 : State) : Prop :=
  ∃ d : List Event, s2.trace = s1.trace ++ d ∧ ∀ e ∈ d, e.kind ∈ ks

/-- What is known about the child started last: whether a poll has reported
it terminated (a `waitpid` that did not return 0), and the number of polls
made since it was started. -/
structure Since where
  terminated : Bool
  polls : Nat
deriving DecidableEq, Repr

/-- One step of the check that every `fork` is guarded.  A `fork` is allowed
when the child started before has been reported terminated or, if a bound is
given, when at least that many polls were made since it was started; the
check fails (`none`) at a `fork` that is not allowed. -/
def guardStep (bound : Option Nat) (q : Option Since) (e : Event) : Option Since :=
  match q, e with
  | none, _ => none
  | some q, .fork _ =>
    if q.terminated || (match bound with
        | some b => decide (b ≤ q.polls)
        | none => false)
    then some { terminated := false, polls := 0 } else none
  | some q, .waitpid _ a =>
    some { terminated := q.terminated || (a.ret != 0), polls := q.polls + 1 }
  | some q, _ => some q

/-- The check run over a trace from the program start, where no child has
been started yet. -/
def guardRun (bound : Option Nat) (tr : List Event) : Option Since :=
  tr.foldl (guardStep bound) (some { terminated := true, polls := 0 })

/-- Every `fork` of the trace is guarded: with `bound = none`, the child
started before has been reported terminated by a poll; with
`bound = some b`, that or `b` polls were made since it was started. -/
def startsGuarded (bound : Option Nat) (tr : List Event) : Bool :=
  (guardRun bound tr).isSome

/-- An environment in which the file `f` has a new modification time at every
look, no other file exists, and the child with pid 77 never terminates,
whatever signal it is sent. -/
def osStubborn : OS where
  stat := fun n path => if path = "f".toList then .ok (100 + n) else .enoent
  fork := fun n => 77 + n
  execvp := fun _ => true
  waitpid := fun _ => { ret := 0, status := 0 }
  kill := fun _ _ _ => 0

/-- An environment in which the child with pid 77 is terminated by the first
SIGTERM: the first poll reaps it with the status of a death by signal 15,
after which the pid is gone (`kill` and `waitpid` fail with -1). -/
def osDiesOnTerm : OS where
  stat := fun _ _ => .enoent
  fork := fun n => 77 + n
  execvp := fun _ => true
  waitpid := fun n => if n = 0 then { ret := 77, status := signaledStatus 15 0 } else { ret := -1, status := 0 }
  kill := fun n _ _ => if n = 0 then 0 else -1

/-- The command line `prog x f:RESTART -- cmd`. -/
def argvRestart : List Str :=
  ["prog".toList, "x".toList, "f:RESTART".toList, "--".toList, "cmd".toList]

/-- The state of a run on `argvRestart` in `osStubborn` when the first tick
has found `f` changed: the child 77 has been polled once and is running. -/
def sChanged : State :=
  { watches := [{ path := "f".toList, sig := ACTION_RESTART, recent_mtime := 101 }],
    childpid := 77,
    SUBCOMMAND := some ["cmd".toList],
    nstat := 2, nfork := 1, nwait := 1, nkill := 0,
    trace := [.stat "f".toList (.ok 100), .fork 77,
              .waitpid 77 { ret := 0, status := 0 }, .usleep 10000,
              .stat "f".toList (.ok 101)] }

/-- The state of that run when the child has just been started. -/
def sStarted : State :=
  { watches := [{ path := "f".toList, sig := ACTION_RESTART, recent_mtime := 100 }],
    childpid := 77,
    SUBCOMMAND := some ["cmd".toList],
    nstat := 1, nfork := 1, nwait := 0, nkill := 0,
    trace := [.stat "f".toList (.ok 100), .fork 77] }

/-- The state after `k` iterations of the loop of `main` in each of which
the child is reported running and no watch has changed; `none` when one of
these iterations is not of that kind. -/
def idleTicks (os : OS) : Nat → State → Option State
  | 0, s => some s
  | k + 1, s =>
    match child_process_exitcode os s with
    | .ok exitcode s1 =>
      if exitcode < 0 then
        match run_watches os (emit (.usleep SLEEP_TIME_MICROSECS) s1) with
        | .ok none s2 => idleTicks os k s2
        | _ => none
      else none
    | _ => none

/-- The command line `prog x f -- sleep 100`. -/
def argvSleep : List Str :=
  ["prog".toList, "x".toList, "f".toList, "--".toList, "sleep".toList, "100".toList]

/-- The command line `prog x f:-1 -- cmd`. -/
def argvMinusOne : List Str :=
  ["prog".toList, "x".toList, "f:-1".toList, "--".toList, "cmd".toList]

/-- An environment in which `f` has a new modification time at every look
and the child 77, running at the first poll, is terminated by the first
signal it is sent: the second poll reaps it with the status of a death by
signal 15, after which the pid is gone (`kill` and `waitpid` fail with -1). -/
def osChangeThenDie : OS where
  stat := fun n path => if path = "f".toList then .ok (100 + n) else .enoent
  fork := fun n => 77 + n
  execvp := fun _ => true
  waitpid := fun n =>
    if n = 0 then { ret := 0, status := 0 }
    else if n = 1 then { ret := 77, status := signaledStatus 15 0 }
    else { ret := -1, status := 0 }
  kill := fun n _ _ => if n = 0 then 0 else -1

/-- The command line `prog x f:TERM -- cmd`. -/
def argvTerm : List Str :=
  ["prog".toList, "x".toList, "f:TERM".toList, "--".toList, "cmd".toList]

/-- The state of the run on `argvTerm` in `osChangeThenDie` when the loop of
`main` is entered. -/
def sTerm0 : State := (main osChangeThenDie argvTerm 0).state

/-- That run after the liveness poll of the first tick. -/
def sTerm1 : State := (child_process_exitcode osChangeThenDie sTerm0).state

/-- That run after the change detection of the first tick. -/
def sTerm2 : State :=
  (run_watches osChangeThenDie (emit (.usleep SLEEP_TIME_MICROSECS) sTerm1)).state

/-- A registry filled to capacity: sixteen watches registered on `f`. -/
def sFull : State :=
  (registerAll osFiles ((List.replicate 16 "f".toList).map some) State.init).state

/-- The command line `prog f f ... f -- cmd` with seventeen watchspecs. -/
def argvSeventeen : List Str :=
  "prog".toList :: (List.replicate 17 "f".toList ++ ["--".toList, "cmd".toList])

/-- The command line `prog f --`: a watchspec and the separator, no command. -/
def argvNoCommand : List Str :=
  ["prog".toList, "f".toList, "--".toList]

/-- An environment in which the forked child, pid 77, cannot execute its
command and is reaped at the first poll with exit status 127. -/
def osExecFails : OS where
  stat := fun _ _ => .enoent
  fork := fun n => 77 + n
  execvp := fun _ => false
  waitpid := fun _ => { ret := 77, status := exitedStatus 127 }
  kill := fun _ _ _ => 0

/-- An environment in which the forked child, pid 77, is terminated by signal
11 (`SIGSEGV`) while executing its command, as a child handed an empty
argument vector is, and is reaped at the first poll. -/
def osChildCrashes : OS where
  stat := fun _ _ => .enoent
  fork := fun n => 77 + n
  execvp := fun _ => false
  waitpid := fun _ => { ret := 77, status := signaledStatus 11 0 }
  kill := fun _ _ _ => 0

/-! ## Modification states -/

/-- The modification state of a path: absent (`none`), or present with its
modification time. -/
abbrev ModState := Option Int

/-- What `stat` answers for a path in the given modification state. -/
def statOf : ModState → StatResult
  | none => .enoent
  | some t => .ok t

/-- The `int` under which a modification state is stored in `recent_mtime`:
-1 for an absent path (line 28), the modification time converted to `int`
for a present one (line 31). -/
def encode : ModState → Int
  | none => -1
  | some t => toInt32 t

/-- The value returned, if the piece returned. -/
def Res.val? {α : Type} : Res α → Option α
  | .ok a _ => some a
  | .halt _ _ => none

/-- The results of `n` successive calls of `run_watch` on the watch of index
`i`; the list stops short if the program stops. -/
def run_watch_times (os : OS) (i : Nat) : Nat → State → List Bool
  | 0, _ => []
  | n + 1, s =>
    match run_watch os i s with
    | .ok b s1 => b :: run_watch_times os i n s1
    | .halt _ _ => []

/-- The path that lines 79-83 leave in the watch: the raw argument cut at its
last colon. -/
def pathOf (raw : Str) : Str :=
  match strrchr raw ':' with
  | some i => raw.take i
  | none => raw

/-- An environment in which `f` is present with modification time -1 at the
first look, absent at the second, present with modification time 2^32 - 1 at
the third, and present with modification time -1 from then on. -/
def osCollide : OS where
  stat := fun n _ =>
    if n = 0 then .ok (-1) else if n = 1 then .enoent
    else if n = 2 then .ok 4294967295 else .ok (-1)
  fork := fun n => 77 + n
  execvp := fun _ => true
  waitpid := fun _ => { ret := 0, status := 0 }
  kill := fun _ _ _ => 0

/-- An environment in which `f` does not exist at the first look and is
present with modification time -1 from then on. -/
def osCreatedMinusOne : OS where
  stat := fun n _ => if n = 0 then .enoent else .ok (-1)
  fork := fun n => 77 + n
  execvp := fun _ => true
  waitpid := fun _ => { ret := 0, status := 0 }
  kill := fun _ _ _ => 0

/-- An environment in which `f` does not exist at the first look and is
present with modification time 100 from then on. -/
def osCreated : OS where
  stat := fun n _ => if n = 0 then .enoent else .ok 100
  fork := fun n => 77 + n
  execvp := fun _ => true
  waitpid := fun _ => { ret := 0, status := 0 }
  kill := fun _ _ _ => 0

/-! ## One pass over the registry -/

/-- The value that `mtime` computes for the path of the watch in the file
system `fs`. -/
def current (fs : Str → ModState) (w : Watch) : Int := encode (fs w.path)

/-- The comparison of line 105 for the watch in the file system `fs`: the
stored `int` is not the `int` of the current state. -/
def differs (fs : Str → ModState) (w : Watch) : Bool := w.recent_mtime != current fs w

/-- The watch with its stored state replaced by its current state. -/
def refresh (fs : Str → ModState) (w : Watch) : Watch :=
  { w with recent_mtime := current fs w }

/-- Index of the first watch of the list that differs, if any. -/
def firstChanged (fs : Str → ModState) : List Watch → Option Nat
  | [] => none
  | w :: ws => if differs fs w then some 0 else (firstChanged fs ws).map (· + 1)

/-- The list after a pass that stops at the first watch that differs: the
watches up to and including that one are refreshed, the others are kept. -/
def scanned (fs : Str → ModState) : List Watch → List Watch
  | [] => []
  | w :: ws => refresh fs w :: (if differs fs w then ws else scanned fs ws)

/-- The indices, counted from `k`, of the watches of the list that differ,
in increasing order. -/
def changedFrom (fs : Str → ModState) : Nat → List Watch → List Nat
  | _, [] => []
  | k, w :: ws =>
    if differs fs w then k :: changedFrom fs (k + 1) ws else changedFrom fs (k + 1) ws

/-- The results of `n` successive calls of `run_watches`; the list stops
short if the program stops. -/
def run_watches_times (os : OS) : Nat → State → List (Option Nat)
  | 0, _ => []
  | n + 1, s =>
    match run_watches os s with
    | .ok r s1 => r :: run_watches_times os n s1
    | .halt _ _ => []

/-- What `n` calls return when each index of the list is returned once, in
the order of the list, one per call, and `none` is returned afterwards. -/
def oncePerCall : Nat → List Nat → List (Option Nat)
  | 0, _ => []
  | n + 1, [] => none :: oncePerCall n []
  | n + 1, d :: ds => some d :: oncePerCall n ds

/-- A file system in which `a` has modification time 100, `b` has
modification time 200 and nothing else exists. -/
def fsAB (p : Str) : ModState :=
  if p = "a".toList then some 100 else if p = "b".toList then some 200 else none

/-- An environment whose file system is `fsAB` at every look. -/
def osAB : OS where
  stat := fun _ p => statOf (fsAB p)
  fork := fun n => 77 + n
  execvp := fun _ => true
  waitpid := fun _ => { ret := 0, status := 0 }
  kill := fun _ _ _ => 0

/-- A state with four watches: `a` stored as it is, `b` stored with an older
time, `c` stored as present although it is gone, `a` again stored as absent. -/
def sFour : State :=
  { State.init with
    watches := [{ path := "a".toList, sig := SIGKILL, recent_mtime := 100 },
                { path := "b".toList, sig := SIGHUP, recent_mtime := 150 },
                { path := "c".toList, sig := ACTION_RESTART, recent_mtime := 5 },
                { path := "a".toList, sig := SIGTERM, recent_mtime := -1 }] }

/-! ## Kill and wait: what is expected -/

/-- The exit code that line 147 reads from a status word. -/
def statusCode (status : Int) : Int :=
  if WIFEXITED status then WEXITSTATUS status else 0

/-- The events of `n` iterations of sleep-then-poll on the child `pid`, the
first poll being the `start`-th `waitpid` call. -/
def pollEvents (os : OS) (pid : Int) : Nat → Nat → List Event
  | _, 0 => []
  | start, n + 1 =>
    .usleep SLEEP_TIME_MICROSECS :: .waitpid pid (os.waitpid start) ::
      pollEvents os pid (start + 1) n

/-- The state after lines 164-165: the message is written and the signal is
sent once. -/
def signalled (os : OS) (sig : Int) (s : State) : State :=
  { s with
    nkill := s.nkill + 1,
    trace := s.trace ++
      [.signalling sig s.childpid, .kill s.childpid sig (os.kill s.nkill s.childpid sig)] }

/-- A progress dot (line 169). -/
def Event.isDot : Event → Bool
  | .dot => true
  | _ => false

/-- An environment in which the child 77 is reported running by the first
two polls and reaped by the third with exit status 3. -/
def osThirdPoll : OS where
  stat := fun _ _ => .enoent
  fork := fun n => 77 + n
  execvp := fun _ => true
  waitpid := fun n => if n < 2 then { ret := 0, status := 0 } else { ret := 77, status := exitedStatus 3 }
  kill := fun _ _ _ => 0

/-! ## Failing system calls -/

/-- A `stat` that failed with an error other than ENOENT, or a `fork` that
failed. -/
def Event.isFailure : Event → Bool
  | .stat _ .error => true
  | .fork r => r == -1
  | _ => false

/-- How the piece stopped the program, if it did. -/
def Res.halted {α : Type} : Res α → Option Halt
  | .ok _ _ => none
  | .halt h _ => some h

/-- No failing `stat` or `fork` in the trace. -/
def Clean (tr : List Event) : Prop := ∀ e ∈ tr, e.isFailure = false

/-- Either the trace holds no failing `stat` or `fork`, or the program has
exited with status 127 right after the first one and its `perror` message. -/
def FailStopAt (h : Option Halt) (tr : List Event) : Prop :=
  Clean tr ∨
    (h = some (.exit 127) ∧
      ∃ pre e m, tr = pre ++ [e, .perror m] ∧ e.isFailure = true ∧ Clean pre)

/-- The outcome `r` satisfies `FailStopAt`. -/
def FailStop {α : Type} (r : Res α) : Prop := FailStopAt r.halted r.state.trace

/-- An environment in which `fork` fails. -/
def osForkFails : OS where
  stat := fun _ _ => .enoent
  fork := fun _ => -1
  execvp := fun _ => true
  waitpid := fun _ => { ret := 0, status := 0 }
  kill := fun _ _ _ => 0

/-- An environment in which `waitpid` fails at once with -1 and leaves the
status word, which holds 0, untouched. -/
def osWaitFails : OS where
  stat := fun _ _ => .enoent
  fork := fun n => 77 + n
  execvp := fun _ => true
  waitpid := fun _ => { ret := -1, status := 0 }
  kill := fun _ _ _ => 0

/-- The watches that a pass looks up with `stat`: those up to and including
the first one that differs. -/
def polled (fs : Str → ModState) : List Watch → List Watch
  | [] => []
  | w :: ws => w :: (if differs fs w then [] else polled fs ws)

/-- The `stat` events of looking up the given watches in `fs`, in order. -/
def statEvents (fs : Str → ModState) (ws : List Watch) : List Event :=
  ws.map (fun w => .stat w.path (statOf (fs w.path)))

/-- An environment with two files: `f` does not exist at the first two looks
and is present with modification time -1 afterwards; `g` is present with
modification time 100 at the first two looks and 200 afterwards. -/
def osTwoFiles : OS where
  stat := fun n p =>
    if p = "f".toList then (if n < 2 then .enoent else .ok (-1))
    else (if n < 2 then .ok 100 else .ok 200)
  fork := fun n => 77 + n
  execvp := fun _ => true
  waitpid := fun _ => { ret := 0, status := 0 }
  kill := fun _ _ _ => 0

/-- The registry after `f` and `g` have been registered in `osTwoFiles`. -/
def sTwoFiles : State :=
  (registerAll osTwoFiles [some "f".toList, some "g".toList, none] State.init).state

/-- An environment in which `waitpid` fails at once with -1 and the status
word, left untouched, happens to hold the word of an exit with code 85. -/
def osWaitFailsGarbage : OS where
  stat := fun _ _ => .enoent
  fork := fun n => 77 + n
  execvp := fun _ => true
  waitpid := fun _ => { ret := -1, status := exitedStatus 85 }
  kill := fun _ _ _ => 0

/-- An environment in which every `kill` fails with -1 and the child 77 is
reaped by the first poll with exit status 3. -/
def osKillDenied : OS where
  stat := fun _ _ => .enoent
  fork := fun n => 77 + n
  execvp := fun _ => true
  waitpid := fun _ => { ret := 77, status := exitedStatus 3 }
  kill := fun _ _ _ => -1

/-! ## Argument parsing and startup -/

theorem scanArgs_watchspecs (ws : List Str) (rest : List (Option Str)) (i : Nat)
    (w0 : Option Nat) (hws : sep ∉ ws) :
    scanArgs (ws.map some ++ some sep :: rest) i w0 =
      { vec := ws.map some ++ none :: rest,
        watches := if ws = [] then w0 else if w0 = none then some i else w0,
        SUBCOMMAND := some (i + ws.length + 1) } := by
  induction ws generalizing i w0 with
  | nil => simp [scanArgs, sep]
  | cons a ws ih =>
    have ha : a ≠ "--".toList := by
      intro h
      exact hws (by simp [sep, h])
    have hws2 : sep ∉ ws := fun h => hws (List.mem_cons_of_mem _ h)
    simp only [List.map_cons, List.cons_append, scanArgs, ha, if_false, List.append_eq]
    rw [ih _ _ hws2]
    by_cases hw : w0 = none
    · subst hw
      by_cases hnil : ws = [] <;> simp [hnil]
      omega
    · by_cases hnil : ws = [] <;> simp [hnil, hw]
      omega

theorem strings_map_some (cmd : List Str) : strings (cmd.map some ++ [none]) = cmd := by
  induction cmd with
  | nil => rfl
  | cons a cmd ih => simp [strings, ih]

/-- With a first watchspec `w`, further watchspecs `ws` and a separator,
startup registers `ws` only: the pointer handed to
`parse_and_register_watches` points at `w`, which `*++watches` steps over. -/
theorem startup_registers_tail (os : OS) (prog w : Str) (ws cmd : List Str)
    (hw : w ≠ sep) (hws : sep ∉ ws) :
    startup os (prog :: w :: ws ++ sep :: cmd) =
      registerAll os (ws.map some ++ none :: (cmd.map some ++ [none]))
        { State.init with SUBCOMMAND := some cmd } := by
  have hscan := scanArgs_watchspecs (w :: ws) (cmd.map some ++ [none]) 1 none
    (by simp [hws]; exact fun h => hw h.symm)
  have hlen : ∀ l : List (Option Str),
      List.drop (ws.length + 1) (List.map some ws ++ none :: l) = l := by
    intro l
    have := @List.drop_append (Option Str) (List.map some ws) (none :: l) 1
    simpa using this
  simp only [startup, List.map_cons, List.map_append, List.cons_append, List.append_assoc,
    List.drop_succ_cons, List.drop_zero, List.take_succ_cons, List.take_zero]
  simp only [List.map_cons, List.cons_append] at hscan
  rw [hscan]
  simp [parse_and_register_watches, hlen, strings_map_some, Nat.add_comm 1]



/-- With no watch registered, an iteration of the loop of `main` polls the
child and, when it is still running, sleeps and does nothing else. -/
theorem tick_no_watches (os : OS) (s : State) (h : s.watches = []) :
    tick os s =
      if 0 < s.childpid then
        if (os.waitpid s.nwait).ret = 0 then
          .ok () (emit (.usleep SLEEP_TIME_MICROSECS)
            (emit (.waitpid s.childpid (os.waitpid s.nwait)) { s with nwait := s.nwait + 1 }))
        else
          .halt (.exit (if WIFEXITED (os.waitpid s.nwait).status
              then WEXITSTATUS (os.waitpid s.nwait).status else 0))
            (emit (.waitpid s.childpid (os.waitpid s.nwait)) { s with nwait := s.nwait + 1 })
      else .halt .abort s := by
  unfold tick child_process_exitcode
  by_cases hp : 0 < s.childpid
  · by_cases hr : (os.waitpid s.nwait).ret = 0
    · simp [hp, hr, run_watches, watch_count, emit, h, run_watches_from]
    · have h0 : (0 : Int) ≤ (os.waitpid s.nwait).status / 256 % 256 :=
        Int.emod_nonneg _ (by decide)
      by_cases hx : WIFEXITED (os.waitpid s.nwait).status = true
      · simp [hp, hr, hx, WEXITSTATUS, h0]
      · simp [hp, hr, hx]
  · simp [hp]

/-- With no watch registered the loop of `main` never calls `kill` nor
`stat`, however long it runs. -/
theorem loop_no_watches (os : OS) (fuel : Nat) (s : State) (h : s.watches = []) :
    (loop os fuel s).state.watches = [] ∧
      (loop os fuel s).state.trace.filter Event.isKill = s.trace.filter Event.isKill ∧
      (loop os fuel s).state.trace.filter Event.isStat = s.trace.filter Event.isStat := by
  induction fuel generalizing s with
  | zero => simp [loop, Res.state, h]
  | succ n ih =>
    unfold loop
    rw [tick_no_watches os s h]
    by_cases hp : 0 < s.childpid
    · by_cases hr : (os.waitpid s.nwait).ret = 0
      · simp only [hp, hr, if_true]
        have := ih (emit (.usleep SLEEP_TIME_MICROSECS)
            (emit (.waitpid s.childpid (os.waitpid s.nwait)) { s with nwait := s.nwait + 1 }))
            (by simp [emit, h])
        simpa [emit, Event.isKill, Event.isStat] using this
      · simp [hp, hr, Res.state, emit, h, Event.isKill, Event.isStat]
    · simp [hp, Res.state, h]

theorem startup_single_watchspec (os : OS) :
    startup os ["prog".toList, "f".toList, "--".toList, "sleep".toList, "100".toList] =
      .ok () { State.init with SUBCOMMAND := some ["sleep".toList, "100".toList] } := by
  rfl

/-- Claim C1, refuted on the code: for the command line `prog f -- sleep 100`
startup returns normally with an empty registry although one watchspec was
given, and for `prog a b -- cmd` the registry holds one watch, the one parsed
from `b`; the first watchspec is never registered. -/
theorem startup_skips_first_watchspec (os : OS) :
    startup os ["prog".toList, "f".toList, "--".toList, "sleep".toList, "100".toList] =
        .ok () { State.init with SUBCOMMAND := some ["sleep".toList, "100".toList] } ∧
      (startup os ["prog".toList, "a".toList, "b".toList, "--".toList,
          "cmd".toList]).state.watches.map Watch.path = ["b".toList] := by
  refine ⟨rfl, ?_⟩
  have h := startup_registers_tail os "prog".toList "a".toList ["b".toList] ["cmd".toList]
    (by decide) (by decide)
  have h2 : startup os ["prog".toList, "a".toList, "b".toList, "--".toList, "cmd".toList] =
      registerAll os [some "b".toList, none, some "cmd".toList, none]
        { State.init with SUBCOMMAND := some ["cmd".toList] } := h
  rw [h2]
  cases hs : os.stat 0 ['b'] <;>
    simp [registerAll, register_watch, mtime, State.init, MAX_WATCHES, strrchr, hs, emit,
      setMtime, Res.state, die]

/-- Claim C2, refuted on the code: on the command line `prog f -- sleep 100`
the registry stays empty, so whatever happens to `f` and however long the
loop runs, `f` is never looked up with `stat` and no signal is ever sent. -/
theorem default_action_never_signals (os : OS) (fuel : Nat) :
    (main os ["prog".toList, "f".toList, "--".toList, "sleep".toList, "100".toList]
        fuel).state.watches = [] ∧
      ∀ e ∈ (main os ["prog".toList, "f".toList, "--".toList, "sleep".toList, "100".toList]
        fuel).state.trace, e.isKill = false ∧ e.isStat = false := by
  have key : ∀ r : Res Unit, r.state.watches = [] →
      r.state.trace.filter Event.isKill = [] → r.state.trace.filter Event.isStat = [] →
      r.state.watches = [] ∧ ∀ e ∈ r.state.trace, e.isKill = false ∧ e.isStat = false := by
    intro r h1 h2 h3
    refine ⟨h1, fun e he => ⟨?_, ?_⟩⟩
    · have := List.filter_eq_nil_iff.mp h2 e he
      simpa using this
    · have := List.filter_eq_nil_iff.mp h3 e he
      simpa using this
  unfold main
  rw [startup_single_watchspec]
  simp only [child_process_start, State.init]
  by_cases h1 : os.fork 0 = -1
  · simp [h1, die, emit, Res.state, Event.isKill, Event.isStat]
  · by_cases h0 : os.fork 0 = 0
    · cases hx : os.execvp ["sleep".toList, "100".toList] <;>
        simp [h0, hx, die, emit, Res.state, Event.isKill, Event.isStat]
    · simp only [h1, h0, if_false]
      have := loop_no_watches os fuel
        (emit (.fork (os.fork 0))
          { watches := [], childpid := os.fork 0,
            SUBCOMMAND := some ["sleep".toList, "100".toList],
            nstat := 0, nfork := 0 + 1, nwait := 0, nkill := 0, trace := [] }) rfl
      apply key
      · exact this.1
      · rw [this.2.1]; simp [emit, Event.isKill]
      · rw [this.2.2]; simp [emit, Event.isStat]

/-! ## The child's exit code -/

/-- Claim C6: with a started child, `child_process_exitcode` makes one
`waitpid` call and returns -1 exactly when that call returns 0 (child not
terminated); the exit status `c` (0..255) when the child exited normally with
`c`; 0 when it was terminated by a signal; and in every case where the child
is not reported running a value between 0 and 255, so never the marker -1. -/
theorem child_process_exitcode_spec (os : OS) (s : State) (hpid : 0 < s.childpid) :
    ∃ r : Int,
      child_process_exitcode os s =
          .ok r (emit (.waitpid s.childpid (os.waitpid s.nwait)) { s with nwait := s.nwait + 1 }) ∧
        (r = -1 ↔ (os.waitpid s.nwait).ret = 0) ∧
        ((os.waitpid s.nwait).ret ≠ 0 → 0 ≤ r ∧ r ≤ 255) ∧
        (∀ c : Int, (os.waitpid s.nwait).ret ≠ 0 → 0 ≤ c → c ≤ 255 →
          (os.waitpid s.nwait).status = exitedStatus c → r = c) ∧
        (∀ sig core : Int, (os.waitpid s.nwait).ret ≠ 0 → 0 < sig → sig < 128 →
          core = 0 ∨ core = 128 →
          (os.waitpid s.nwait).status = signaledStatus sig core → r = 0) := by
  unfold child_process_exitcode
  by_cases hr : (os.waitpid s.nwait).ret = 0
  · exact ⟨-1, by simp [hpid, hr], by simp [hr], by simp [hr], by simp [hr], by simp [hr]⟩
  · refine ⟨if WIFEXITED (os.waitpid s.nwait).status
        then WEXITSTATUS (os.waitpid s.nwait).status else 0, by simp [hpid, hr], ?_, ?_, ?_, ?_⟩
    · simp only [hr, iff_false]
      unfold WEXITSTATUS
      split <;> omega
    · intro _
      unfold WEXITSTATUS
      split <;> omega
    · intro c _ h0 h255 hst
      simp only [hst, WIFEXITED, WEXITSTATUS, exitedStatus]
      have h1 : c * 256 % 128 = 0 := by omega
      have h2 : c * 256 / 256 % 256 = c := by omega
      rw [h1, h2]
      rfl
    · intro sig core _ h0 h128 hcore hst
      simp only [hst, WIFEXITED, signaledStatus]
      have h1 : (sig + core) % 128 ≠ 0 := by omega
      simp [h1]

theorem child_process_exitcode_spec_witness :
    0 < sRunning.childpid ∧
      ∃ r : Int,
        child_process_exitcode osExit42 sRunning =
            .ok r (emit (.waitpid sRunning.childpid (osExit42.waitpid sRunning.nwait))
              { sRunning with nwait := sRunning.nwait + 1 }) ∧
          (r = -1 ↔ (osExit42.waitpid sRunning.nwait).ret = 0) ∧
          ((osExit42.waitpid sRunning.nwait).ret ≠ 0 → 0 ≤ r ∧ r ≤ 255) ∧
          (∀ c : Int, (osExit42.waitpid sRunning.nwait).ret ≠ 0 → 0 ≤ c → c ≤ 255 →
            (osExit42.waitpid sRunning.nwait).status = exitedStatus c → r = c) ∧
          (∀ sig core : Int, (osExit42.waitpid sRunning.nwait).ret ≠ 0 → 0 < sig → sig < 128 →
            core = 0 ∨ core = 128 →
            (osExit42.waitpid sRunning.nwait).status = signaledStatus sig core → r = 0) :=
  ⟨by decide, child_process_exitcode_spec osExit42 sRunning (by decide)⟩

/-! ## Action names -/

theorem digits_not_digit (cs : Str) (h : ∀ c rest, cs = c :: rest → isdigit c = false) :
    digits cs 0 = 0 := by
  cases cs with
  | nil => rfl
  | cons c rest => simp [digits, h c rest rfl]

theorem atoi_no_integer (t : Str) (h : startsWithInteger t = false) : atoi t = 0 := by
  unfold startsWithInteger at h
  unfold atoi
  generalize t.dropWhile isspace = u at h
  have hz : toInt32 (clampLong 0) = 0 := by decide
  unfold strtolSigned
  split
  · next cs =>
    have : digits cs 0 = 0 := by
      apply digits_not_digit
      intro c rest hc
      subst hc
      simpa using h
    simp [this, hz]
  · next cs =>
    have : digits cs 0 = 0 := by
      apply digits_not_digit
      intro c rest hc
      subst hc
      simpa using h
    simp [this, hz]
  · next cs h1 h2 =>
    have : digits u 0 = 0 := by
      apply digits_not_digit
      intro c rest hc
      subst hc
      split at h
      · next hh => exact (h1 _ hh).elim
      · next hh => exact (h2 _ hh).elim
      · next hh =>
        simp only [List.cons.injEq] at hh
        rw [hh.1]; exact h
      · next hh => exact absurd hh (by simp)
    simp [this, hz]

theorem action_by_name_other (t : Str) (h : t ∉ actionNames) :
    action_by_name t = atoi t := by
  simp [actionNames] at h
  simp [action_by_name, h]

theorem digits_eq_decimalValue (cs : Str) (acc : Nat) :
    digits cs acc =
      acc * 10 ^ (leadingDigits cs).length + decimalValue (leadingDigits cs) := by
  induction cs generalizing acc with
  | nil => simp [digits, leadingDigits, decimalValue]
  | cons c cs ih =>
    unfold digits
    by_cases hc : isdigit c = true
    · simp only [hc, if_true]
      rw [ih]
      simp only [leadingDigits, List.takeWhile_cons, hc, if_true, List.map_cons,
        List.length_cons, decimalValue, List.length_map]
      ring
    · simp [leadingDigits, List.takeWhile_cons, hc, decimalValue]

theorem atoi_eq_decimalParse (t : Str) : atoi t = toInt32 (clampLong (decimalParse t)) := by
  unfold atoi decimalParse
  generalize t.dropWhile isspace = u
  unfold strtolSigned
  split
  · simp [digits_eq_decimalValue]
  · simp [digits_eq_decimalValue]
  · next h1 h2 =>
    split
    · exact (h1 _ rfl).elim
    · exact (h2 _ rfl).elim
    · simp [digits_eq_decimalValue]

theorem toInt32_clampLong_of_int (v : Int) (h1 : -(2 ^ 31) ≤ v) (h2 : v < 2 ^ 31) :
    toInt32 (clampLong v) = v := by
  unfold toInt32 clampLong
  split
  · omega
  · split <;> omega

/-- Claim C7 fails as stated: the token "4294967295" is none of the names and
its decimal-integer parse is 4294967295, yet `action_by_name` gives -1, the
value of the restart action, because the parse is converted to `int`. -/
theorem action_by_name_wraps :
    "4294967295".toList ∉ actionNames ∧
      decimalParse "4294967295".toList = 4294967295 ∧
      action_by_name "4294967295".toList = -1 ∧
      ACTION_RESTART = -1 := by
  decide

/-- Claim C7, as amended: `action_by_name` maps "RESTART" to the restart
action, each of the six mnemonics, bare or with the SIG prefix, to the signal
number of that name, and every other token to its decimal-integer parse
converted to `int`: the parsed value clamped to the range of `long` and then
reduced to 32 bits, so the parsed value itself whenever it lies in the `int`
range; this is 0 for every token that does not start with an integer, such
as "restart", "sigterm", "" and "SIGQUIT". -/
theorem action_by_name_table (t : Str) :
    (t = "RESTART".toList → action_by_name t = ACTION_RESTART) ∧
      (t = "HUP".toList ∨ t = "SIGHUP".toList → action_by_name t = SIGHUP) ∧
      (t = "INT".toList ∨ t = "SIGINT".toList → action_by_name t = SIGINT) ∧
      (t = "KILL".toList ∨ t = "SIGKILL".toList → action_by_name t = SIGKILL) ∧
      (t = "TERM".toList ∨ t = "SIGTERM".toList → action_by_name t = SIGTERM) ∧
      (t = "USR1".toList ∨ t = "SIGUSR1".toList → action_by_name t = SIGUSR1) ∧
      (t = "USR2".toList ∨ t = "SIGUSR2".toList → action_by_name t = SIGUSR2) ∧
      (t ∉ actionNames → action_by_name t = toInt32 (clampLong (decimalParse t))) ∧
      (t ∉ actionNames → -(2 ^ 31) ≤ decimalParse t → decimalParse t < 2 ^ 31 →
        action_by_name t = decimalParse t) ∧
      (t ∉ actionNames → startsWithInteger t = false → action_by_name t = 0) ∧
      action_by_name "restart".toList = 0 ∧ action_by_name "sigterm".toList = 0 ∧
      action_by_name "".toList = 0 ∧ action_by_name "SIGQUIT".toList = 0 ∧
      action_by_name "15".toList = 15 ∧ action_by_name " -42x".toList = -42 := by
  have hother : t ∉ actionNames → action_by_name t = toInt32 (clampLong (decimalParse t)) := by
    intro h
    rw [action_by_name_other t h, atoi_eq_decimalParse]
  refine ⟨?_, ?_, ?_, ?_, ?_, ?_, ?_, hother, ?_, ?_, by decide, by decide, by decide,
    by decide, by decide, by decide⟩
  · rintro rfl; decide
  · rintro (rfl | rfl) <;> decide
  · rintro (rfl | rfl) <;> decide
  · rintro (rfl | rfl) <;> decide
  · rintro (rfl | rfl) <;> decide
  · rintro (rfl | rfl) <;> decide
  · rintro (rfl | rfl) <;> decide
  · intro h h1 h2
    rw [hother h, toInt32_clampLong_of_int _ h1 h2]
  · intro h hs
    rw [action_by_name_other t h, atoi_no_integer t hs]

theorem action_by_name_table_witness :
    action_by_name "SIGHUP".toList = SIGHUP ∧
      action_by_name "-42".toList = decimalParse "-42".toList ∧
      action_by_name "bogus".toList = 0 :=
  ⟨(action_by_name_table "SIGHUP".toList).2.1 (Or.inr rfl),
    (action_by_name_table "-42".toList).2.2.2.2.2.2.2.2.1 (by decide) (by decide) (by decide),
    (action_by_name_table "bogus".toList).2.2.2.2.2.2.2.2.2.1 (by decide) (by decide)⟩

/-! ## Registering a watch -/

theorem strrchr_none (s : Str) (c : Char) (h : c ∉ s) : strrchr s c = none := by
  induction s with
  | nil => rfl
  | cons x xs ih =>
    have hx : x ≠ c := fun e => h (by simp [e])
    have hxs : c ∉ xs := fun e => h (List.mem_cons_of_mem _ e)
    simp [strrchr, ih hxs, hx]

theorem strrchr_last (p t : Str) (c : Char) (h : c ∉ t) :
    strrchr (p ++ c :: t) c = some p.length := by
  induction p with
  | nil => simp [strrchr, strrchr_none t c h]
  | cons x xs ih => simp [strrchr, ih]

theorem setMtime_last (ws : List Watch) (w : Watch) (m : Int) :
    setMtime (ws ++ [w]) ws.length m = ws ++ [{ w with recent_mtime := m }] := by
  induction ws with
  | nil => rfl
  | cons x xs ih => simp [setMtime, ih]

/-- A registration in a registry with room appends one entry, whose path and
action are cut at the last colon; it returns unless `stat` fails with an
error other than ENOENT, in which case the program exits with 127. -/
theorem register_watch_room (os : OS) (raw : Str) (s : State)
    (h : s.watches.length ≠ MAX_WATCHES) :
    ∃ m : Int,
      (register_watch os raw s).state.watches = s.watches ++
        [{ path := (match strrchr raw ':' with
              | some i => raw.take i
              | none => raw),
           sig := (match strrchr raw ':' with
              | some i => action_by_name (raw.drop (i + 1))
              | none => SIGKILL),
           recent_mtime := m }] ∧
      ((∃ s1, register_watch os raw s = .ok () s1) ∨
        (∃ s1, register_watch os raw s = .halt (.exit 127) s1)) := by
  unfold register_watch
  simp only [h, if_false, mtime]
  cases os.stat s.nstat (match strrchr raw ':' with
      | some i => raw.take i
      | none => raw) with
  | ok t => exact ⟨toInt32 t, by simp [Res.state, emit, setMtime_last], Or.inl ⟨_, rfl⟩⟩
  | enoent => exact ⟨-1, by simp [Res.state, emit, setMtime_last], Or.inl ⟨_, rfl⟩⟩
  | error => exact ⟨0, by simp [Res.state, emit, die], Or.inr ⟨_, rfl⟩⟩

/-- Claim C9: in a registry with room, `register_watch` of the raw argument
`raw` appends a watch; its path is `raw` and its action SIGKILL when `raw`
has no colon; when `raw` is `p`, a colon and a colon-free `t`, its path is
`p` (which may contain colons) and its action is `action_by_name t`. -/
theorem register_watch_split (os : OS) (raw : Str) (s : State)
    (hroom : watch_count s ≠ MAX_WATCHES) :
    ∃ w : Watch,
      (register_watch os raw s).state.watches = s.watches ++ [w] ∧
        ((∃ s1, register_watch os raw s = .ok () s1) ∨
          (∃ s1, register_watch os raw s = .halt (.exit 127) s1)) ∧
        (':' ∉ raw → w.path = raw ∧ w.sig = SIGKILL) ∧
        (∀ p t : Str, raw = p ++ ':' :: t → ':' ∉ t →
          w.path = p ∧ w.sig = action_by_name t) := by
  obtain ⟨m, hw, hres⟩ := register_watch_room os raw s hroom
  refine ⟨_, hw, hres, ?_, ?_⟩
  · intro hc
    simp [strrchr_none raw ':' hc]
  · intro p t hraw ht
    subst hraw
    simp [strrchr_last p t ':' ht]

theorem register_watch_split_witness :
    watch_count State.init ≠ MAX_WATCHES ∧
      ∃ w : Watch,
        (register_watch osFiles "a:b:TERM".toList State.init).state.watches =
            State.init.watches ++ [w] ∧
          ((∃ s1, register_watch osFiles "a:b:TERM".toList State.init = .ok () s1) ∨
            (∃ s1, register_watch osFiles "a:b:TERM".toList State.init = .halt (.exit 127) s1)) ∧
          (':' ∉ "a:b:TERM".toList → w.path = "a:b:TERM".toList ∧ w.sig = SIGKILL) ∧
          (∀ p t : Str, "a:b:TERM".toList = p ++ ':' :: t → ':' ∉ t →
            w.path = p ∧ w.sig = action_by_name t) :=
  ⟨by decide, register_watch_split osFiles "a:b:TERM".toList State.init (by decide)⟩

/-! ## Capacity of the registry -/

theorem register_watch_full (os : OS) (raw : Str) (s : State)
    (h : s.watches.length = MAX_WATCHES) :
    register_watch os raw s =
      .halt (.exit 127) (emit (.perror "Too many watches defined.".toList) s) := by
  simp [register_watch, h, die]

theorem register_watch_count_le (os : OS) (raw : Str) (s : State)
    (h : watch_count s ≤ MAX_WATCHES) :
    watch_count (register_watch os raw s).state ≤ MAX_WATCHES := by
  by_cases hfull : s.watches.length = MAX_WATCHES
  · rw [register_watch_full os raw s hfull]
    simpa [Res.state, emit, watch_count] using h
  · obtain ⟨m, hw, _⟩ := register_watch_room os raw s hfull
    unfold watch_count at h ⊢
    rw [hw]
    simp only [List.length_append, List.length_singleton]
    omega

theorem registerAll_count_le (os : OS) (vec : List (Option Str)) (s : State)
    (h : watch_count s ≤ MAX_WATCHES) :
    watch_count (registerAll os vec s).state ≤ MAX_WATCHES := by
  induction vec generalizing s with
  | nil => simpa [registerAll, Res.state] using h
  | cons a rest ih =>
    cases a with
    | none => simpa [registerAll, Res.state] using h
    | some w =>
      have hstep := register_watch_count_le os w s h
      unfold registerAll
      cases hr : register_watch os w s with
      | ok u s1 =>
        rw [hr] at hstep
        exact ih s1 hstep
      | halt hh s1 =>
        rw [hr] at hstep
        exact hstep

/-- Claim C10: after any sequence of `register_watch` calls on a registry of
at most 16 watches the registry holds at most 16; a call on a registry of
exactly 16 exits with status 127 and leaves the registry as it was; a call
on a registry of fewer than 16 appends exactly one entry after the existing
ones, which are unchanged. -/
theorem registry_capacity (os : OS) (raw : Str) (raws : List Str) (s : State) :
    (watch_count s ≤ MAX_WATCHES →
        watch_count (registerAll os (raws.map some) s).state ≤ 16) ∧
      (watch_count s = 16 →
        register_watch os raw s =
            .halt (.exit 127) (emit (.perror "Too many watches defined.".toList) s) ∧
          (register_watch os raw s).state.watches = s.watches) ∧
      (watch_count s < 16 →
        ∃ w : Watch, (register_watch os raw s).state.watches = s.watches ++ [w]) := by
  refine ⟨fun h => registerAll_count_le os _ s h, fun h => ?_, fun h => ?_⟩
  · have hfull : s.watches.length = MAX_WATCHES := h
    rw [register_watch_full os raw s hfull]
    exact ⟨rfl, rfl⟩
  · have hroom : s.watches.length ≠ MAX_WATCHES := by
      unfold watch_count at h
      unfold MAX_WATCHES
      omega
    obtain ⟨m, hw, _⟩ := register_watch_room os raw s hroom
    exact ⟨_, hw⟩

theorem registry_capacity_witness :
    watch_count (registerAll osFiles ((List.replicate 17 "f".toList).map some)
        State.init).state ≤ 16 ∧
      (register_watch osFiles "g".toList sFull =
          .halt (.exit 127) (emit (.perror "Too many watches defined.".toList) sFull) ∧
        (register_watch osFiles "g".toList sFull).state.watches = sFull.watches) ∧
      ∃ w : Watch,
        (register_watch osFiles "g".toList State.init).state.watches =
          State.init.watches ++ [w] :=
  ⟨(registry_capacity osFiles "g".toList (List.replicate 17 "f".toList) State.init).1
      (by decide),
    (registry_capacity osFiles "g".toList [] sFull).2.1 (by decide),
    (registry_capacity osFiles "g".toList [] State.init).2.2 (by decide)⟩

/-! ## What each function adds to the trace -/

theorem Adds.of_eq {ks : List Kind} {s1 s2 : State} (h : s2.trace = s1.trace) :
    Adds ks s1 s2 :=
  ⟨[], by simp [h], by simp⟩

theorem Adds.rfl {ks : List Kind} {s : State} : Adds ks s s :=
  Adds.of_eq (Eq.refl _)

theorem Adds.trans {ks : List Kind} {s1 s2 s3 : State} (h1 : Adds ks s1 s2)
    (h2 : Adds ks s2 s3) : Adds ks s1 s3 := by
  obtain ⟨d1, e1, p1⟩ := h1
  obtain ⟨d2, e2, p2⟩ := h2
  refine ⟨d1 ++ d2, by rw [e2, e1, List.append_assoc], ?_⟩
  intro e he
  rcases List.mem_append.mp he with h | h
  · exact p1 e h
  · exact p2 e h

theorem Adds.mono {ks ks2 : List Kind} {s1 s2 : State} (h : Adds ks s1 s2)
    (hsub : ∀ k ∈ ks, k ∈ ks2) : Adds ks2 s1 s2 := by
  obtain ⟨d, e, p⟩ := h
  exact ⟨d, e, fun x hx => hsub _ (p x hx)⟩

theorem Adds.emit {ks : List Kind} {s1 s2 : State} (e : Event) (h : Adds ks s1 s2)
    (he : e.kind ∈ ks) : Adds ks s1 (emit e s2) := by
  obtain ⟨d, e1, p⟩ := h
  refine ⟨d ++ [e], by simp [Waitnsee.emit, e1], ?_⟩
  intro x hx
  rcases List.mem_append.mp hx with h | h
  · exact p x h
  · rw [List.mem_singleton.mp h]; exact he

theorem Adds.filter_eq {ks : List Kind} {s1 s2 : State} (h : Adds ks s1 s2)
    (p : Event → Bool) (hp : ∀ e, e.kind ∈ ks → p e = false) :
    s2.trace.filter p = s1.trace.filter p := by
  obtain ⟨d, e1, hd⟩ := h
  rw [e1, List.filter_append]
  have : d.filter p = [] := by
    rw [List.filter_eq_nil_iff]
    intro x hx
    simp [hp x (hd x hx)]
  simp [this]

theorem mtime_adds (os : OS) (path : Str) (s : State) :
    Adds [.stat, .msg] s (mtime os path s).state := by
  unfold mtime
  cases os.stat s.nstat path <;>
    simp only [Res.state, die] <;>
    first
    | exact Adds.emit _ (Adds.of_eq rfl) (by simp [Event.kind])
    | exact Adds.emit _ (Adds.emit _ (Adds.of_eq rfl) (by simp [Event.kind])) (by simp [Event.kind])

theorem mtime_frame (os : OS) (path : Str) (s : State) :
    (mtime os path s).state.watches = s.watches ∧
      (mtime os path s).state.childpid = s.childpid ∧
      (mtime os path s).state.SUBCOMMAND = s.SUBCOMMAND ∧
      (mtime os path s).state.nwait = s.nwait ∧
      (mtime os path s).state.nfork = s.nfork ∧
      (mtime os path s).state.nkill = s.nkill := by
  unfold mtime
  cases os.stat s.nstat path <;> simp [Res.state, die, emit]

theorem register_watch_adds (os : OS) (raw : Str) (s : State) :
    Adds [.stat, .msg] s (register_watch os raw s).state := by
  unfold register_watch
  by_cases h : s.watches.length = MAX_WATCHES
  · simp only [h, if_true, die, Res.state]
    exact Adds.emit _ Adds.rfl (by simp [Event.kind])
  · simp only [h, if_false]
    generalize hp : (match strrchr raw ':' with
      | some i => raw.take i
      | none => raw) = path
    generalize hg : (match strrchr raw ':' with
      | some i => action_by_name (raw.drop (i + 1))
      | none => SIGKILL) = sig
    have hm := mtime_adds os path
      { s with watches := s.watches ++ [{ path := path, sig := sig, recent_mtime := 0 }] }
    cases hr : mtime os path
      { s with watches := s.watches ++ [{ path := path, sig := sig, recent_mtime := 0 }] } with
    | ok m s2 =>
      rw [hr] at hm
      exact Adds.trans (Adds.trans (Adds.of_eq rfl) hm) (Adds.of_eq rfl)
    | halt hh s2 =>
      rw [hr] at hm
      exact Adds.trans (Adds.of_eq rfl) hm

theorem registerAll_adds (os : OS) (vec : List (Option Str)) (s : State) :
    Adds [.stat, .msg] s (registerAll os vec s).state := by
  induction vec generalizing s with
  | nil => exact Adds.rfl
  | cons a rest ih =>
    cases a with
    | none => exact Adds.rfl
    | some w =>
      have hstep := register_watch_adds os w s
      unfold registerAll
      cases hr : register_watch os w s with
      | ok u s1 =>
        rw [hr] at hstep
        exact Adds.trans hstep (ih s1)
      | halt hh s1 =>
        rw [hr] at hstep
        exact hstep

theorem startup_adds (os : OS) (argv : List Str) :
    Adds [.stat, .msg] State.init (startup os argv).state := by
  unfold startup
  simp only
  split
  · exact Adds.trans (Adds.of_eq rfl) (registerAll_adds os _ _)
  · exact Adds.emit _ (Adds.of_eq rfl) (by simp [Event.kind])
  · exact Adds.emit _ Adds.rfl (by simp [Event.kind])

theorem run_watch_adds (os : OS) (i : Nat) (s : State) :
    Adds [.stat, .msg] s (run_watch os i s).state := by
  unfold run_watch
  cases s.watches.get? i with
  | none => exact Adds.rfl
  | some w =>
    have hm := mtime_adds os w.path s
    simp only
    cases hr : mtime os w.path s with
    | ok m s1 =>
      rw [hr] at hm
      exact Adds.trans hm (Adds.of_eq rfl)
    | halt hh s1 =>
      rw [hr] at hm
      exact hm

theorem run_watches_from_adds (os : OS) (n i : Nat) (s : State) :
    Adds [.stat, .msg] s (run_watches_from os n i s).state := by
  induction n generalizing i s with
  | zero => exact Adds.rfl
  | succ n ih =>
    have hw := run_watch_adds os i s
    unfold run_watches_from
    cases hr : run_watch os i s with
    | ok b s1 =>
      rw [hr] at hw
      cases b with
      | true => exact hw
      | false => exact Adds.trans hw (ih (i + 1) s1)
    | halt hh s1 =>
      rw [hr] at hw
      exact hw

theorem run_watches_adds (os : OS) (s : State) :
    Adds [.stat, .msg] s (run_watches os s).state :=
  run_watches_from_adds os _ 0 s

theorem child_process_kill_adds (os : OS) (sig : Int) (s : State) :
    Adds [.msg, .kill] s (child_process_kill os sig s).state := by
  unfold child_process_kill
  by_cases hp : 0 < s.childpid
  · simp only [hp, if_true]
    split
    · exact Adds.emit _ (Adds.emit _ (Adds.trans (Adds.emit _ Adds.rfl (by simp [Event.kind]))
        (Adds.of_eq rfl)) (by simp [Event.kind])) (by simp [Event.kind])
    · exact Adds.emit _ (Adds.trans (Adds.emit _ Adds.rfl (by simp [Event.kind]))
        (Adds.of_eq rfl)) (by simp [Event.kind])
  · simp only [hp, if_false]
    exact Adds.rfl

theorem child_process_start_adds (os : OS) (s : State) :
    Adds [.fork, .execvp, .msg] s (child_process_start os s).state := by
  unfold child_process_start
  cases s.SUBCOMMAND with
  | none => exact Adds.rfl
  | some cmd =>
    have h1 : Adds [.fork, .execvp, .msg] s
        (emit (.fork (os.fork s.nfork))
          { s with childpid := os.fork s.nfork, nfork := s.nfork + 1 }) :=
      Adds.emit _ (Adds.of_eq rfl) (by simp [Event.kind])
    simp only
    split
    · exact Adds.emit _ h1 (by simp [Event.kind])
    · split
      · split
        · exact Adds.emit _ h1 (by simp [Event.kind])
        · exact Adds.emit _ (Adds.emit _ h1 (by simp [Event.kind])) (by simp [Event.kind])
      · exact h1

theorem child_process_exitcode_adds (os : OS) (s : State) :
    Adds [.waitpid] s (child_process_exitcode os s).state := by
  unfold child_process_exitcode
  by_cases hp : 0 < s.childpid
  · simp only [hp, if_true]
    split <;> exact Adds.emit _ (Adds.of_eq rfl) (by simp [Event.kind])
  · simp only [hp, if_false]
    exact Adds.rfl

/-! ## The guard check along the program -/

theorem guardStep_quiet (b : Option Nat) (q : Option Since) (e : Event)
    (h1 : e.kind ≠ .fork) (h2 : e.kind ≠ .waitpid) : guardStep b q e = q := by
  cases q with
  | none => rfl
  | some q => cases e <;> simp_all [guardStep, Event.kind]

theorem foldl_guardStep_quiet (b : Option Nat) (q : Option Since) (d : List Event)
    (h : ∀ e ∈ d, e.kind ≠ .fork ∧ e.kind ≠ .waitpid) :
    d.foldl (guardStep b) q = q := by
  induction d generalizing q with
  | nil => rfl
  | cons e d ih =>
    have he := h e (List.mem_cons_self _ _)
    rw [List.foldl_cons, guardStep_quiet b q e he.1 he.2]
    exact ih q (fun x hx => h x (List.mem_cons_of_mem _ hx))

theorem guardRun_quiet {ks : List Kind} {s1 s2 : State} (h : Adds ks s1 s2)
    (hf : Kind.fork ∉ ks) (hw : Kind.waitpid ∉ ks) (b : Option Nat) :
    guardRun b s2.trace = guardRun b s1.trace := by
  obtain ⟨d, e1, hd⟩ := h
  unfold guardRun
  rw [e1, List.foldl_append]
  apply foldl_guardStep_quiet
  intro e he
  exact ⟨fun hk => hf (hk ▸ hd e he), fun hk => hw (hk ▸ hd e he)⟩

theorem guardRun_emit (b : Option Nat) (e : Event) (s : State) :
    guardRun b (emit e s).trace = guardStep b (guardRun b s.trace) e := by
  simp [guardRun, emit, List.foldl_append]

/-- The exit code that line 147 reads from a status word is never negative. -/
theorem status_code_nonneg (status : Int) :
    0 ≤ (if WIFEXITED status then WEXITSTATUS status else 0) := by
  unfold WEXITSTATUS
  split <;> omega

theorem child_process_exitcode_eq (os : OS) (s : State) (hp : 0 < s.childpid) :
    child_process_exitcode os s =
      .ok (if (os.waitpid s.nwait).ret = 0 then -1
          else if WIFEXITED (os.waitpid s.nwait).status
            then WEXITSTATUS (os.waitpid s.nwait).status else 0)
        (emit (.waitpid s.childpid (os.waitpid s.nwait)) { s with nwait := s.nwait + 1 }) := by
  unfold child_process_exitcode
  by_cases hr : (os.waitpid s.nwait).ret = 0 <;> simp [hp, hr]

theorem child_process_exitcode_abort (os : OS) (s : State) (hp : ¬ 0 < s.childpid) :
    child_process_exitcode os s = .halt .abort s := by
  simp [child_process_exitcode, hp]

theorem child_process_exitcode_guard (os : OS) (s : State) (b : Option Nat) (q : Since)
    (h : guardRun b s.trace = some q) :
    (∀ r s1, child_process_exitcode os s = .ok r s1 →
        ∃ q1, guardRun b s1.trace = some q1 ∧ q1.polls = q.polls + 1 ∧
          (q.terminated = true → q1.terminated = true) ∧
          (r ≠ -1 → q1.terminated = true) ∧ (r < 0 → r = -1)) ∧
      (∀ hh s1, child_process_exitcode os s = .halt hh s1 → guardRun b s1.trace = some q) := by
  by_cases hp : 0 < s.childpid
  · rw [child_process_exitcode_eq os s hp]
    refine ⟨?_, fun hh s1 e => by cases e⟩
    intro r s1 e
    injection e with e1 e2
    subst e2
    have hg : guardRun b (emit (.waitpid s.childpid (os.waitpid s.nwait))
        { s with nwait := s.nwait + 1 }).trace =
        some { terminated := q.terminated || ((os.waitpid s.nwait).ret != 0),
               polls := q.polls + 1 } := by
      rw [guardRun_emit]
      have h2 : guardRun b ({ s with nwait := s.nwait + 1 } : State).trace = some q := h
      rw [h2]
      rfl
    refine ⟨_, hg, rfl, ?_, ?_, ?_⟩
    · intro ht
      simp [ht]
    · intro hr
      by_cases h0 : (os.waitpid s.nwait).ret = 0
      · simp [h0] at e1; exact absurd e1.symm hr
      · simp [h0]
    · intro hr
      by_cases h0 : (os.waitpid s.nwait).ret = 0
      · simp [h0] at e1; exact e1.symm
      · simp only [h0, if_false] at e1
        have := status_code_nonneg (os.waitpid s.nwait).status
        omega
  · rw [child_process_exitcode_abort os s hp]
    refine ⟨fun r s1 e => (by cases e), ?_⟩
    intro hh s1 e
    injection e with e1 e2
    subst e2
    exact h

/-! ## Kill and wait -/

theorem kill_and_wait_loop_adds (os : OS) (n loops : Nat) (s : State) :
    Adds [.msg, .usleep, .waitpid] s (kill_and_wait_loop os n loops s).state := by
  induction n generalizing loops s with
  | zero => exact Adds.rfl
  | succ n ih =>
    unfold kill_and_wait_loop
    have h2 : Adds [.msg, .usleep, .waitpid] s
        (emit (.usleep SLEEP_TIME_MICROSECS) (if loops % 100000 = 0 then emit .dot s else s)) := by
      apply Adds.emit _ _ (by simp [Event.kind])
      split
      · exact Adds.emit _ Adds.rfl (by simp [Event.kind])
      · exact Adds.rfl
    have h3 : Adds [.msg, .usleep, .waitpid] _ _ := (child_process_exitcode_adds os
        (emit (.usleep SLEEP_TIME_MICROSECS)
          (if loops % 100000 = 0 then emit .dot s else s))).mono (by simp)
    simp only
    cases hr : child_process_exitcode os
        (emit (.usleep SLEEP_TIME_MICROSECS) (if loops % 100000 = 0 then emit .dot s else s)) with
    | ok exitcode s3 =>
      rw [hr] at h3
      simp only
      split
      · exact (h2.trans h3).trans (ih _ _)
      · exact Adds.emit _ (h2.trans h3) (by simp [Event.kind])
    | halt hh s3 =>
      rw [hr] at h3
      exact h2.trans h3

theorem kill_and_wait_loop_guard (os : OS) (n loops : Nat) (s : State) (b : Option Nat)
    (q : Since) (h : guardRun b s.trace = some q) :
    ∃ q1, guardRun b (kill_and_wait_loop os n loops s).state.trace = some q1 ∧
      (q.terminated = true → q1.terminated = true) ∧
      (∀ r s1, kill_and_wait_loop os n loops s = .ok r s1 →
        (r = -1 → q.polls + n ≤ q1.polls) ∧ (r ≠ -1 → q1.terminated = true)) := by
  induction n generalizing loops s q with
  | zero =>
    refine ⟨q, h, id, ?_⟩
    intro r s1 e
    simp only [kill_and_wait_loop] at e
    injection e with e1 e2
    exact ⟨fun _ => Nat.le_refl _, fun hne => absurd e1.symm hne⟩
  | succ n ih =>
    have h2 : guardRun b (emit (.usleep SLEEP_TIME_MICROSECS)
        (if loops % 100000 = 0 then emit .dot s else s)).trace = some q := by
      rw [guardRun_emit]
      split
      · rw [guardRun_emit, h]; rfl
      · rw [h]; rfl
    obtain ⟨hok, hhalt⟩ := child_process_exitcode_guard os _ b q h2
    unfold kill_and_wait_loop
    simp only
    cases hr : child_process_exitcode os
        (emit (.usleep SLEEP_TIME_MICROSECS) (if loops % 100000 = 0 then emit .dot s else s)) with
    | ok exitcode s3 =>
      obtain ⟨q3, hq3, hpolls, hmono, hterm, hneg⟩ := hok exitcode s3 hr
      simp only
      by_cases hlt : exitcode < 0
      · simp only [hlt, if_true]
        obtain ⟨q1, hq1, hm1, hres⟩ := ih (loops + 1) s3 q3 hq3
        refine ⟨q1, hq1, fun ht => hm1 (hmono ht), ?_⟩
        intro r s1 e
        obtain ⟨ha, hb⟩ := hres r s1 e
        exact ⟨fun hr1 => by have := ha hr1; omega, hb⟩
      · simp only [hlt, if_false]
        have hne : exitcode ≠ -1 := by omega
        refine ⟨q3, ?_, hmono, ?_⟩
        · simp only [Res.state]
          rw [guardRun_emit, hq3]; rfl
        · intro r s1 e
          injection e with e1 e2
          subst e1
          exact ⟨fun hr1 => absurd hr1 hne, fun _ => hterm hne⟩
    | halt hh s3 =>
      refine ⟨q, hhalt hh s3 hr, id, ?_⟩
      intro r s1 e
      cases e

theorem kill_and_wait_loop_timeout (os : OS) (n loops : Nat) (s : State)
    (hp : 0 < s.childpid) (hrun : ∀ j, j < n → (os.waitpid (s.nwait + j)).ret = 0) :
    ∃ s1, kill_and_wait_loop os n loops s = .ok (-1) s1 ∧
      s1.childpid = s.childpid ∧ s1.SUBCOMMAND = s.SUBCOMMAND ∧ s1.watches = s.watches ∧
      s1.nfork = s.nfork ∧ s1.nkill = s.nkill ∧ s1.nwait = s.nwait + n ∧
      (∀ b q, guardRun b s.trace = some q →
        guardRun b s1.trace = some { terminated := q.terminated, polls := q.polls + n }) := by
  induction n generalizing loops s with
  | zero => exact ⟨s, rfl, rfl, rfl, rfl, rfl, rfl, rfl, fun b q h => h⟩
  | succ n ih =>
    have hp2 : 0 < (emit (.usleep SLEEP_TIME_MICROSECS)
        (if loops % 100000 = 0 then emit .dot s else s)).childpid := by
      split <;> exact hp
    have hw2 : (emit (.usleep SLEEP_TIME_MICROSECS)
        (if loops % 100000 = 0 then emit .dot s else s)).nwait = s.nwait := by
      split <;> rfl
    have h0 : (os.waitpid s.nwait).ret = 0 := by simpa using hrun 0 (Nat.succ_pos n)
    unfold kill_and_wait_loop
    simp only
    rw [child_process_exitcode_eq os _ hp2, hw2]
    simp only [h0, if_true]
    have hneg : ((-1 : Int) < 0) = True := by simp
    simp only [hneg, if_true]
    obtain ⟨s1, e, c1, c2, c3, c4, c5, c6, c7⟩ := ih (loops + 1)
      (emit (.waitpid (emit (.usleep SLEEP_TIME_MICROSECS)
          (if loops % 100000 = 0 then emit .dot s else s)).childpid (os.waitpid s.nwait))
        { (emit (.usleep SLEEP_TIME_MICROSECS)
            (if loops % 100000 = 0 then emit .dot s else s)) with nwait := s.nwait + 1 })
      (by split <;> exact hp)
      (by
        intro j hj
        have := hrun (j + 1) (Nat.succ_lt_succ hj)
        simpa [emit, Nat.add_assoc, Nat.add_comm 1 j] using this)
    refine ⟨s1, e, ?_, ?_, ?_, ?_, ?_, ?_, ?_⟩
    · rw [c1]; split <;> rfl
    · rw [c2]; split <;> rfl
    · rw [c3]; split <;> rfl
    · rw [c4]; split <;> rfl
    · rw [c5]; split <;> rfl
    · rw [c6]; simp [emit]; omega
    · intro b q hq
      have := c7 b { terminated := q.terminated, polls := q.polls + 1 } (by
        rw [guardRun_emit]
        have : guardRun b ({ (emit (.usleep SLEEP_TIME_MICROSECS)
            (if loops % 100000 = 0 then emit .dot s else s)) with nwait := s.nwait + 1 } :
              State).trace = some q := by
          show guardRun b (emit (.usleep SLEEP_TIME_MICROSECS)
            (if loops % 100000 = 0 then emit .dot s else s)).trace = some q
          rw [guardRun_emit]
          split
          · rw [guardRun_emit, hq]; rfl
          · rw [hq]; rfl
        rw [this]
        simp [guardStep, h0])
      rw [this]
      simp [Nat.add_assoc, Nat.add_comm 1 n]

theorem child_process_kill_and_wait_adds (os : OS) (sig : Int) (s : State) :
    Adds [.msg, .kill, .usleep, .waitpid] s (child_process_kill_and_wait os sig s).state := by
  unfold child_process_kill_and_wait
  by_cases hp : 0 < s.childpid
  · simp only [hp, if_true]
    have h1 : Adds [.msg, .kill, .usleep, .waitpid] s
        (emit (.kill (emit (.signalling sig s.childpid) s).childpid sig
            (os.kill (emit (.signalling sig s.childpid) s).nkill
              (emit (.signalling sig s.childpid) s).childpid sig))
          { emit (.signalling sig s.childpid) s with
            nkill := (emit (.signalling sig s.childpid) s).nkill + 1 }) :=
      Adds.emit _ (Adds.trans (Adds.emit _ Adds.rfl (by simp [Event.kind])) (Adds.of_eq rfl))
        (by simp [Event.kind])
    exact h1.trans ((kill_and_wait_loop_adds os _ 1 _).mono (by simp))
  · simp only [hp, if_false]
    exact Adds.rfl

theorem child_process_kill_and_wait_guard (os : OS) (sig : Int) (s : State) (b : Option Nat)
    (q : Since) (h : guardRun b s.trace = some q) :
    ∃ q1, guardRun b (child_process_kill_and_wait os sig s).state.trace = some q1 ∧
      (q.terminated = true → q1.terminated = true) ∧
      (∀ r s1, child_process_kill_and_wait os sig s = .ok r s1 →
        (r = -1 → q.polls + MAX_WAIT_MICROSECS / SLEEP_TIME_MICROSECS ≤ q1.polls) ∧
          (r ≠ -1 → q1.terminated = true)) := by
  unfold child_process_kill_and_wait
  by_cases hp : 0 < s.childpid
  · simp only [hp, if_true]
    apply kill_and_wait_loop_guard
    rw [guardRun_emit]
    have : guardRun b ({ emit (.signalling sig s.childpid) s with
        nkill := (emit (.signalling sig s.childpid) s).nkill + 1 } : State).trace = some q := by
      show guardRun b (emit (.signalling sig s.childpid) s).trace = some q
      rw [guardRun_emit, h]; rfl
    rw [this]; rfl
  · simp only [hp, if_false]
    exact ⟨q, h, id, fun r s1 e => by cases e⟩

theorem child_process_kill_and_wait_timeout (os : OS) (sig : Int) (s : State)
    (hp : 0 < s.childpid)
    (hrun : ∀ j, j < MAX_WAIT_MICROSECS / SLEEP_TIME_MICROSECS →
      (os.waitpid (s.nwait + j)).ret = 0) :
    ∃ s1, child_process_kill_and_wait os sig s = .ok (-1) s1 ∧
      s1.childpid = s.childpid ∧ s1.SUBCOMMAND = s.SUBCOMMAND ∧ s1.watches = s.watches ∧
      s1.nfork = s.nfork ∧
      s1.nwait = s.nwait + MAX_WAIT_MICROSECS / SLEEP_TIME_MICROSECS ∧
      s1.trace.filter Event.isKill =
        s.trace.filter Event.isKill ++ [.kill s.childpid sig (os.kill s.nkill s.childpid sig)] ∧
      (∀ b q, guardRun b s.trace = some q →
        guardRun b s1.trace =
          some { terminated := q.terminated,
                 polls := q.polls + MAX_WAIT_MICROSECS / SLEEP_TIME_MICROSECS }) := by
  obtain ⟨s1, e, c1, c2, c3, c4, _, c6, c7⟩ :=
    kill_and_wait_loop_timeout os (MAX_WAIT_MICROSECS / SLEEP_TIME_MICROSECS) 1
      (emit (.kill s.childpid sig (os.kill s.nkill s.childpid sig))
        { emit (.signalling sig s.childpid) s with nkill := s.nkill + 1 }) hp hrun
  have hadds := kill_and_wait_loop_adds os (MAX_WAIT_MICROSECS / SLEEP_TIME_MICROSECS) 1
      (emit (.kill s.childpid sig (os.kill s.nkill s.childpid sig))
        { emit (.signalling sig s.childpid) s with nkill := s.nkill + 1 })
  rw [e] at hadds
  refine ⟨s1, ?_, c1, c2, c3, c4, c6, ?_, ?_⟩
  · unfold child_process_kill_and_wait
    simp only [hp, if_true]
    exact e
  · have hf := hadds.filter_eq Event.isKill (by
      intro x hx
      cases x <;> simp_all [Event.kind, Event.isKill])
    simp only [Res.state] at hf
    rw [hf]
    simp [emit, Event.isKill]
  · intro b q hq
    apply c7
    rw [guardRun_emit]
    have : guardRun b ({ emit (.signalling sig s.childpid) s with
        nkill := s.nkill + 1 } : State).trace = some q := by
      show guardRun b (emit (.signalling sig s.childpid) s).trace = some q
      rw [guardRun_emit, hq]; rfl
    rw [this]; rfl

theorem child_process_start_guard (os : OS) (s : State) (b : Nat) (q : Since)
    (h : guardRun (some b) s.trace = some q) (hok : q.terminated = true ∨ b ≤ q.polls) :
    ∃ q1, guardRun (some b) (child_process_start os s).state.trace = some q1 := by
  have h0 : ∀ x, guardStep (some b) (some q) (.fork x) =
      some { terminated := false, polls := 0 } := by
    intro x
    rcases hok with ht | hb
    · simp [guardStep, ht]
    · simp [guardStep, hb]
  unfold child_process_start
  cases s.SUBCOMMAND with
  | none => exact ⟨q, h⟩
  | some cmd =>
    refine ⟨{ terminated := false, polls := 0 }, ?_⟩
    simp only
    split
    · simp only [die, Res.state, guardRun_emit, h, h0]
      rfl
    · split
      · split
        · simp only [Res.state, guardRun_emit, h, h0]
          rfl
        · simp only [die, Res.state, guardRun_emit, h, h0]
          rfl
      · simp only [Res.state, guardRun_emit, h, h0]

theorem restart_guard (os : OS) (s : State) (q : Since)
    (h : guardRun (some (MAX_WAIT_MICROSECS / SLEEP_TIME_MICROSECS)) s.trace = some q) :
    ∃ q1, guardRun (some (MAX_WAIT_MICROSECS / SLEEP_TIME_MICROSECS))
      (restart os s).state.trace = some q1 := by
  obtain ⟨q1, hq1, _, hres⟩ := child_process_kill_and_wait_guard os SIGTERM s _ q h
  unfold restart
  cases hr : child_process_kill_and_wait os SIGTERM s with
  | halt hh s1 =>
    rw [hr] at hq1
    exact ⟨q1, hq1⟩
  | ok r s1 =>
    rw [hr] at hq1
    obtain ⟨ha, hb⟩ := hres r s1 hr
    simp only
    by_cases h0 : r = 0
    · have hterm : q1.terminated = true := hb (by omega)
      simp only [h0, ne_eq, not_true_eq_false, if_false]
      obtain ⟨q2, hq2, hm2, _⟩ := child_process_kill_and_wait_guard os SIGKILL s1 _ q1 hq1
      cases hr2 : child_process_kill_and_wait os SIGKILL s1 with
      | halt hh s2 =>
        rw [hr2] at hq2
        exact ⟨q2, hq2⟩
      | ok r2 s2 =>
        rw [hr2] at hq2
        exact child_process_start_guard os s2 _ q2 hq2 (Or.inl (hm2 hterm))
    · simp only [ne_eq, h0, not_false_eq_true, if_true]
      apply child_process_start_guard os s1 _ q1 hq1
      by_cases hm : r = -1
      · exact Or.inr (by have := ha hm; omega)
      · exact Or.inl (hb hm)

theorem dispatch_guard (os : OS) (sig : Int) (s : State) (q : Since)
    (h : guardRun (some (MAX_WAIT_MICROSECS / SLEEP_TIME_MICROSECS)) s.trace = some q) :
    ∃ q1, guardRun (some (MAX_WAIT_MICROSECS / SLEEP_TIME_MICROSECS))
      (dispatch os sig s).state.trace = some q1 := by
  unfold dispatch
  split
  · exact restart_guard os s q h
  · refine ⟨q, ?_⟩
    rw [guardRun_quiet (child_process_kill_adds os sig s) (by simp) (by simp)]
    exact h

theorem tick_guard (os : OS) (s : State) (q : Since)
    (h : guardRun (some (MAX_WAIT_MICROSECS / SLEEP_TIME_MICROSECS)) s.trace = some q) :
    ∃ q1, guardRun (some (MAX_WAIT_MICROSECS / SLEEP_TIME_MICROSECS))
      (tick os s).state.trace = some q1 := by
  obtain ⟨hok, hhalt⟩ := child_process_exitcode_guard os s _ q h
  unfold tick
  cases hr : child_process_exitcode os s with
  | halt hh s1 => exact ⟨q, hhalt hh s1 hr⟩
  | ok exitcode s1 =>
    obtain ⟨q1, hq1, _⟩ := hok exitcode s1 hr
    simp only
    split
    · exact ⟨q1, hq1⟩
    · have hq2 : guardRun (some (MAX_WAIT_MICROSECS / SLEEP_TIME_MICROSECS))
          (run_watches os (emit (.usleep SLEEP_TIME_MICROSECS) s1)).state.trace = some q1 := by
        rw [guardRun_quiet (run_watches_adds os _) (by simp) (by simp), guardRun_emit, hq1]
        rfl
      cases hw : run_watches os (emit (.usleep SLEEP_TIME_MICROSECS) s1) with
      | halt hh s2 =>
        rw [hw] at hq2
        exact ⟨q1, hq2⟩
      | ok r s2 =>
        rw [hw] at hq2
        cases r with
        | none => exact ⟨q1, hq2⟩
        | some i =>
          simp only
          cases s2.watches.get? i with
          | none => exact ⟨q1, hq2⟩
          | some w => exact dispatch_guard os w.sig s2 q1 hq2

theorem loop_guard (os : OS) (fuel : Nat) (s : State) (q : Since)
    (h : guardRun (some (MAX_WAIT_MICROSECS / SLEEP_TIME_MICROSECS)) s.trace = some q) :
    ∃ q1, guardRun (some (MAX_WAIT_MICROSECS / SLEEP_TIME_MICROSECS))
      (loop os fuel s).state.trace = some q1 := by
  induction fuel generalizing s q with
  | zero => exact ⟨q, h⟩
  | succ n ih =>
    obtain ⟨q1, hq1⟩ := tick_guard os s q h
    unfold loop
    cases hr : tick os s with
    | ok u s1 =>
      rw [hr] at hq1
      exact ih s1 q1 hq1
    | halt hh s1 =>
      rw [hr] at hq1
      exact ⟨q1, hq1⟩

theorem main_guard (os : OS) (argv : List Str) (fuel : Nat) :
    ∃ q1, guardRun (some (MAX_WAIT_MICROSECS / SLEEP_TIME_MICROSECS))
      (main os argv fuel).state.trace = some q1 := by
  have h0 : guardRun (some (MAX_WAIT_MICROSECS / SLEEP_TIME_MICROSECS))
      (startup os argv).state.trace = some { terminated := true, polls := 0 } := by
    rw [guardRun_quiet (startup_adds os argv) (by simp) (by simp)]
    rfl
  unfold main
  cases hs : startup os argv with
  | halt hh s =>
    rw [hs] at h0
    exact ⟨_, h0⟩
  | ok u s =>
    rw [hs] at h0
    obtain ⟨q1, hq1⟩ := child_process_start_guard os s _ _ h0 (Or.inl rfl)
    simp only
    cases hc : child_process_start os s with
    | halt hh s1 =>
      rw [hc] at hq1
      exact ⟨q1, hq1⟩
    | ok u1 s1 =>
      rw [hc] at hq1
      exact loop_guard os fuel s1 q1 hq1

/-- In every run of the program, whenever `fork` is called, either no child
was started before, or a poll has reported the child started before
terminated, or at least 500 polls were made since that child was started. -/
theorem starts_guarded_up_to_timeout (os : OS) (argv : List Str) (fuel : Nat) :
    startsGuarded (some (MAX_WAIT_MICROSECS / SLEEP_TIME_MICROSECS))
      (main os argv fuel).state.trace = true := by
  obtain ⟨q1, hq1⟩ := main_guard os argv fuel
  simp [startsGuarded, hq1]

/-! ## Restart -/

/-- Claim C3, refuted on the code: when the child does not terminate within
the 500 polls that follow SIGTERM, the SIGTERM kill-and-wait returns -1 and
`restart` goes straight on to `child_process_start`; the only signal it has
sent is SIGTERM, no SIGKILL follows the timeout. -/
theorem restart_timeout_sends_no_sigkill (os : OS) (s : State) (hp : 0 < s.childpid)
    (hrun : ∀ j, j < MAX_WAIT_MICROSECS / SLEEP_TIME_MICROSECS →
      (os.waitpid (s.nwait + j)).ret = 0) :
    ∃ s1, child_process_kill_and_wait os SIGTERM s = .ok (-1) s1 ∧
      restart os s = child_process_start os s1 ∧
      (restart os s).state.trace.filter Event.isKill =
        s.trace.filter Event.isKill ++
          [.kill s.childpid SIGTERM (os.kill s.nkill s.childpid SIGTERM)] := by
  obtain ⟨s1, e, _, _, _, _, _, hk, _⟩ := child_process_kill_and_wait_timeout os SIGTERM s hp hrun
  have hres : restart os s = child_process_start os s1 := by
    unfold restart
    rw [e]
    simp
  refine ⟨s1, e, hres, ?_⟩
  rw [hres, (child_process_start_adds os s1).filter_eq Event.isKill (by
    intro x hx
    cases x <;> simp_all [Event.kind, Event.isKill]), hk]

theorem restart_timeout_sends_no_sigkill_witness :
    ∃ s1, child_process_kill_and_wait osStubborn SIGTERM sRunning = .ok (-1) s1 ∧
      restart osStubborn sRunning = child_process_start osStubborn s1 ∧
      (restart osStubborn sRunning).state.trace.filter Event.isKill =
        sRunning.trace.filter Event.isKill ++
          [.kill sRunning.childpid SIGTERM
            (osStubborn.kill sRunning.nkill sRunning.childpid SIGTERM)] :=
  restart_timeout_sends_no_sigkill osStubborn sRunning (by decide) (fun _ _ => rfl)

/-- The other half of the escalation on the code: when the child is
terminated by the SIGTERM (reaped by the first poll, reported as exit code 0),
`restart` still sends SIGKILL to the pid that is gone, and then forks. -/
theorem restart_sends_sigkill_after_termination :
    (restart osDiesOnTerm sRunning).state.trace =
      [.fork 77, .signalling 15 77, .kill 77 15 0, .usleep 10000,
       .waitpid 77 { ret := 77, status := 15 }, .exited 0,
       .signalling 9 77, .kill 77 9 (-1), .usleep 10000,
       .waitpid 77 { ret := -1, status := 0 }, .exited 0, .fork 78] := by
  decide

/-! ## At most one live child -/

theorem guardStep_none (b : Option Nat) (e : Event) : guardStep b none e = none := by
  cases e <;> rfl

theorem child_process_start_unguarded (os : OS) (s : State) (cmd : List Str) (k : Nat)
    (hc : s.SUBCOMMAND = some cmd)
    (h : guardRun none s.trace = some { terminated := false, polls := k }) :
    guardRun none (child_process_start os s).state.trace = none := by
  unfold child_process_start
  rw [hc]
  simp only
  have h0 : ∀ x, guardStep none (some { terminated := false, polls := k }) (.fork x) = none := by
    intro x
    simp [guardStep]
  split
  · simp only [die, Res.state, guardRun_emit, h, h0, guardStep_none]
  · split
    · split
      · simp only [Res.state, guardRun_emit, h, h0, guardStep_none]
      · simp only [die, Res.state, guardRun_emit, h, h0, guardStep_none]
    · simp only [Res.state, guardRun_emit, h, h0]

theorem restart_unguarded (os : OS) (s : State) (cmd : List Str) (k : Nat)
    (hp : 0 < s.childpid)
    (hrun : ∀ j, j < MAX_WAIT_MICROSECS / SLEEP_TIME_MICROSECS →
      (os.waitpid (s.nwait + j)).ret = 0)
    (hc : s.SUBCOMMAND = some cmd)
    (h : guardRun none s.trace = some { terminated := false, polls := k }) :
    guardRun none (restart os s).state.trace = none := by
  obtain ⟨s1, e, _, c2, _, _, _, _, hg⟩ :=
    child_process_kill_and_wait_timeout os SIGTERM s hp hrun
  have hres : restart os s = child_process_start os s1 := by
    unfold restart
    rw [e]
    simp
  rw [hres]
  exact child_process_start_unguarded os s1 cmd _ (c2.trans hc) (hg none _ h)

/-- An iteration of the loop that finds the child running and the watch of
index `i` changed dispatches on the action of that watch. -/
theorem tick_dispatch (os : OS) (s s1 s2 : State) (i : Nat) (w : Watch)
    (h1 : child_process_exitcode os s = .ok (-1) s1)
    (h2 : run_watches os (emit (.usleep SLEEP_TIME_MICROSECS) s1) = .ok (some i) s2)
    (h3 : s2.watches.get? i = some w) :
    tick os s = dispatch os w.sig s2 := by
  unfold tick
  rw [h1]
  simp only [h2, h3]
  rfl

theorem main_restart_started (fuel : Nat) :
    main osStubborn argvRestart fuel = loop osStubborn fuel sStarted := by
  rfl

/-- Claim C4, refuted on the code: on the command line
`prog x f:RESTART -- cmd`, with a child that ignores SIGTERM and a change of
`f` seen by the first tick, the restart sends SIGTERM, polls 500 times, sends
no SIGKILL and forks the second child, pid 78, although no poll has reported
the first one terminated. -/
theorem start_while_child_alive :
    startsGuarded none (main osStubborn argvRestart 1).state.trace = false ∧
      (main osStubborn argvRestart 1).state.trace.filter Event.isKill =
        [.kill 77 SIGTERM 0] ∧
      (main osStubborn argvRestart 1).state.trace.getLast? = some (.fork 78) ∧
      (main osStubborn argvRestart 1).halted = none ∧
      (main osStubborn argvRestart 1).state.childpid = 78 := by
  have h1 : child_process_exitcode osStubborn sStarted =
      .ok (-1) (emit (.waitpid 77 { ret := 0, status := 0 }) { sStarted with nwait := 1 }) := by
    decide
  have h2 : run_watches osStubborn (emit (.usleep SLEEP_TIME_MICROSECS)
      (emit (.waitpid 77 { ret := 0, status := 0 }) { sStarted with nwait := 1 })) =
      .ok (some 0) sChanged := by
    decide
  have h3 : sChanged.watches.get? 0 =
      some { path := "f".toList, sig := ACTION_RESTART, recent_mtime := 101 } := rfl
  have ht := tick_dispatch osStubborn sStarted _ sChanged 0 _ h1 h2 h3
  have hd : tick osStubborn sStarted = restart osStubborn sChanged := by
    rw [ht]
    simp [dispatch]
  have hg := restart_unguarded osStubborn sChanged ["cmd".toList] 1 (by decide)
    (fun _ _ => rfl) rfl (by decide)
  obtain ⟨s1, e1, _, c2, _, c4, _, hk, _⟩ :=
    child_process_kill_and_wait_timeout osStubborn SIGTERM sChanged (by decide)
      (fun _ _ => rfl)
  have hres : restart osStubborn sChanged =
      .ok () (emit (.fork 78) { s1 with childpid := 78, nfork := s1.nfork + 1 }) := by
    unfold restart
    rw [e1]
    have hsub : s1.SUBCOMMAND = some ["cmd".toList] := c2
    have hfork : osStubborn.fork s1.nfork = 78 := by
      rw [c4]
      rfl
    simp only [child_process_start, hsub, hfork]
    simp
  rw [main_restart_started]
  simp only [loop, hd]
  rw [hres] at hg ⊢
  simp only [Res.state] at hg ⊢
  refine ⟨by simp [startsGuarded, hg], ?_, ?_, rfl, rfl⟩
  · simp only [emit, List.filter_append, hk]
    decide
  · simp [emit]

/-! ## Propagation of the child's exit code -/

theorem tick_exit (os : OS) (s s1 : State) (c : Int)
    (hexit : child_process_exitcode os s = .ok c s1) (hc : 0 ≤ c) :
    tick os s = .halt (.exit c) s1 ∧
      s1.trace = s.trace ++ [.waitpid s.childpid (os.waitpid s.nwait)] := by
  constructor
  · unfold tick
    rw [hexit]
    simp [hc]
  · by_cases hp : 0 < s.childpid
    · rw [child_process_exitcode_eq os s hp] at hexit
      injection hexit with _ e2
      rw [← e2]
      rfl
    · rw [child_process_exitcode_abort os s hp] at hexit
      cases hexit

theorem idleTicks_loop (os : OS) (k : Nat) (s sk : State)
    (h : idleTicks os k s = some sk) :
    (∀ fuel, loop os (k + fuel) s = loop os fuel sk) ∧
      sk.trace.filter Event.isKill = s.trace.filter Event.isKill := by
  induction k generalizing s with
  | zero =>
    simp only [idleTicks, Option.some.injEq] at h
    subst h
    exact ⟨fun fuel => by rw [Nat.zero_add], rfl⟩
  | succ k ih =>
    unfold idleTicks at h
    cases hr : child_process_exitcode os s with
    | halt hh s1 => simp [hr] at h
    | ok exitcode s1 =>
      rw [hr] at h
      simp only at h
      by_cases hlt : exitcode < 0
      · simp only [hlt, if_true] at h
        cases hw : run_watches os (emit (.usleep SLEEP_TIME_MICROSECS) s1) with
        | halt hh s2 => simp [hw] at h
        | ok r s2 =>
          cases r with
          | some i => simp [hw] at h
          | none =>
            rw [hw] at h
            simp only at h
            obtain ⟨hl, hk⟩ := ih s2 h
            have htick : tick os s = .ok () s2 := by
              unfold tick
              rw [hr]
              have : ¬ (0 ≤ exitcode) := by omega
              simp only [this, if_false, hw]
            constructor
            · intro fuel
              have : k + 1 + fuel = (k + fuel) + 1 := by omega
              rw [this]
              simp only [loop, htick]
              exact hl fuel
            · rw [hk]
              have a1 := child_process_exitcode_adds os s
              rw [hr] at a1
              have a2 := run_watches_adds os (emit (.usleep SLEEP_TIME_MICROSECS) s1)
              rw [hw] at a2
              have a3 : Adds [.waitpid, .usleep, .stat, .msg] s s2 :=
                (Adds.emit _ (a1.mono (by simp)) (by simp [Event.kind])).trans
                  (a2.mono (by simp))
              exact a3.filter_eq Event.isKill (by
                intro x hx
                cases x <;> simp_all [Event.kind, Event.isKill])
      · simp [hlt] at h

/-- Claim C5: on every tick on which the liveness check reports the child
terminated with exit code `c`, the program exits at once with status `c`,
and on that tick it does nothing but the one `waitpid`; so when the child is
reported terminated with code `c` (such as 42) after `k` ticks on which it
was running and no watch had changed, the whole program exits with `c` and
its trace contains no `kill` at all. -/
theorem exit_code_propagates (os : OS) :
    (∀ (s s1 : State) (c : Int), child_process_exitcode os s = .ok c s1 → 0 ≤ c →
        tick os s = .halt (.exit c) s1 ∧
          s1.trace = s.trace ++ [.waitpid s.childpid (os.waitpid s.nwait)] ∧
          ∀ fuel, loop os (fuel + 1) s = .halt (.exit c) s1) ∧
      (∀ (argv : List Str) (s0 s sk s1 : State) (k fuel : Nat) (c : Int),
        startup os argv = .ok () s0 → child_process_start os s0 = .ok () s →
        idleTicks os k s = some sk → child_process_exitcode os sk = .ok c s1 → 0 ≤ c →
        k < fuel →
        main os argv fuel = .halt (.exit c) s1 ∧ ∀ e ∈ s1.trace, e.isKill = false) := by
  have part1 : ∀ (s s1 : State) (c : Int), child_process_exitcode os s = .ok c s1 → 0 ≤ c →
      tick os s = .halt (.exit c) s1 ∧
        s1.trace = s.trace ++ [.waitpid s.childpid (os.waitpid s.nwait)] ∧
        ∀ fuel, loop os (fuel + 1) s = .halt (.exit c) s1 := by
    intro s s1 c hexit hc
    obtain ⟨ht, htr⟩ := tick_exit os s s1 c hexit hc
    exact ⟨ht, htr, fun fuel => by simp only [loop, ht]⟩
  refine ⟨part1, ?_⟩
  intro argv s0 s sk s1 k fuel c h0 h1 hidle hexit hc hf
  obtain ⟨hl, hk⟩ := idleTicks_loop os k s sk hidle
  obtain ⟨_, htr, hloop⟩ := part1 sk s1 c hexit hc
  constructor
  · unfold main
    rw [h0]
    simp only [h1]
    have : fuel = k + ((fuel - k - 1) + 1) := by omega
    rw [this, hl, hloop]
  · have a0 := startup_adds os argv
    rw [h0] at a0
    have a1 := child_process_start_adds os s0
    rw [h1] at a1
    have f0 : s0.trace.filter Event.isKill = [] := by
      have := a0.filter_eq Event.isKill (by
        intro x hx
        cases x <;> simp_all [Event.kind, Event.isKill])
      simpa [Res.state, State.init] using this
    have f1 : s.trace.filter Event.isKill = [] := by
      have := a1.filter_eq Event.isKill (by
        intro x hx
        cases x <;> simp_all [Event.kind, Event.isKill])
      simp only [Res.state] at this
      rw [this, f0]
    have f2 : s1.trace.filter Event.isKill = [] := by
      rw [htr, List.filter_append, hk, f1]
      simp [Event.isKill]
    intro e he
    have := List.filter_eq_nil_iff.mp f2 e he
    simpa using this

theorem exit_code_propagates_witness :
    main osExit42 argvSleep 3 =
        .halt (.exit 42) (main osExit42 argvSleep 3).state ∧
      ∀ e ∈ (main osExit42 argvSleep 3).state.trace, e.isKill = false :=
  (exit_code_propagates osExit42).2 argvSleep
    (startup osExit42 argvSleep).state
    (main osExit42 argvSleep 0).state
    (main osExit42 argvSleep 2).state
    (main osExit42 argvSleep 3).state 2 3 42
    (by decide) (by decide) (by decide) (by decide) (by decide) (by decide)

/-! ## Dispatch on the action of the watch that changed -/

theorem run_watch_frame (os : OS) (i : Nat) (s : State) :
    (run_watch os i s).state.childpid = s.childpid ∧
      (run_watch os i s).state.SUBCOMMAND = s.SUBCOMMAND ∧
      (run_watch os i s).state.nwait = s.nwait ∧
      (run_watch os i s).state.nfork = s.nfork ∧
      (run_watch os i s).state.nkill = s.nkill := by
  unfold run_watch
  cases s.watches.get? i with
  | none => simp [Res.state]
  | some w =>
    have hm := mtime_frame os w.path s
    simp only
    cases hr : mtime os w.path s with
    | ok m s1 =>
      rw [hr] at hm
      simpa [Res.state] using hm.2
    | halt hh s1 =>
      rw [hr] at hm
      simpa [Res.state] using hm.2

theorem run_watches_from_frame (os : OS) (n i : Nat) (s : State) :
    (run_watches_from os n i s).state.childpid = s.childpid ∧
      (run_watches_from os n i s).state.SUBCOMMAND = s.SUBCOMMAND ∧
      (run_watches_from os n i s).state.nwait = s.nwait ∧
      (run_watches_from os n i s).state.nfork = s.nfork ∧
      (run_watches_from os n i s).state.nkill = s.nkill := by
  induction n generalizing i s with
  | zero => simp [run_watches_from, Res.state]
  | succ n ih =>
    have hw := run_watch_frame os i s
    unfold run_watches_from
    cases hr : run_watch os i s with
    | ok b s1 =>
      rw [hr] at hw
      simp only [Res.state] at hw
      cases b with
      | true => simpa [Res.state] using hw
      | false =>
        obtain ⟨a1, a2, a3, a4, a5⟩ := ih (i + 1) s1
        obtain ⟨b1, b2, b3, b4, b5⟩ := hw
        exact ⟨a1.trans b1, a2.trans b2, a3.trans b3, a4.trans b4, a5.trans b5⟩
    | halt hh s1 =>
      rw [hr] at hw
      simpa [Res.state] using hw

theorem run_watches_frame (os : OS) (s : State) :
    (run_watches os s).state.childpid = s.childpid ∧
      (run_watches os s).state.SUBCOMMAND = s.SUBCOMMAND ∧
      (run_watches os s).state.nwait = s.nwait ∧
      (run_watches os s).state.nfork = s.nfork ∧
      (run_watches os s).state.nkill = s.nkill :=
  run_watches_from_frame os _ 0 s

theorem action_restart_iff (tok : Str) :
    action_by_name tok = -1 ↔ tok = "RESTART".toList ∨ atoi tok = -1 := by
  by_cases h : tok ∈ actionNames
  · simp only [actionNames, List.mem_cons, List.mem_singleton, List.not_mem_nil,
      or_false] at h
    rcases h with h | h | h | h | h | h | h | h | h | h | h | h | h <;> subst h <;> decide
  · have := (action_by_name_other tok h)
    rw [this]
    constructor
    · exact fun h1 => Or.inr h1
    · rintro (h1 | h1)
      · exact absurd (by rw [h1]; decide) h
      · exact h1

/-- Claim C8 fails as stated: the token "-1" is not "RESTART", yet on the
command line `prog x f:-1 -- cmd` a change of `f` runs the restart: SIGTERM
and SIGKILL are sent with a wait after each, and a new child is forked;
signal -1 is never delivered. -/
theorem restart_by_numeric_token :
    "-1".toList ≠ "RESTART".toList ∧
      (main osChangeThenDie argvMinusOne 1).state.trace =
        [.stat "f".toList (.ok 100), .fork 77,
         .waitpid 77 { ret := 0, status := 0 }, .usleep 10000,
         .stat "f".toList (.ok 101),
         .signalling 15 77, .kill 77 15 0, .usleep 10000,
         .waitpid 77 { ret := 77, status := 15 }, .exited 0,
         .signalling 9 77, .kill 77 9 (-1), .usleep 10000,
         .waitpid 77 { ret := -1, status := 0 }, .exited 0, .fork 78] := by
  decide

/-- Claim C8, as amended: when a tick finds the child running and a watch
changed whose action was parsed from the token `tok`, then, if the parsed
action is not -1, the tick writes the message, calls `kill` once with the
parsed number and does nothing else (no poll, no fork; exit 127 if `kill`
fails); if the parsed action is -1, the tick runs the restart.  The parsed
action is -1 exactly for the token "RESTART" and for the tokens whose integer
parse is -1. -/
theorem signal_unless_action_is_minus_one (os : OS) (tok : Str) (s s1 s2 : State) (i : Nat)
    (w : Watch)
    (h1 : child_process_exitcode os s = .ok (-1) s1)
    (h2 : run_watches os (emit (.usleep SLEEP_TIME_MICROSECS) s1) = .ok (some i) s2)
    (h3 : s2.watches.get? i = some w)
    (h4 : w.sig = action_by_name tok) :
    (action_by_name tok = -1 ↔ tok = "RESTART".toList ∨ atoi tok = -1) ∧
      (action_by_name tok = -1 → tick os s = restart os s2) ∧
      (action_by_name tok ≠ -1 →
        ∃ sK : State,
          sK = { s2 with
                 nkill := s2.nkill + 1,
                 trace := s2.trace ++
                   [.signalling (action_by_name tok) s2.childpid,
                    .kill s2.childpid (action_by_name tok)
                      (os.kill s2.nkill s2.childpid (action_by_name tok))] } ∧
          tick os s =
            if os.kill s2.nkill s2.childpid (action_by_name tok) ≠ 0
            then .halt (.exit 127) (emit (.perror "kill".toList) sK)
            else .ok () sK) := by
  have ht := tick_dispatch os s s1 s2 i w h1 h2 h3
  rw [h4] at ht
  refine ⟨action_restart_iff tok, ?_, ?_⟩
  · intro hm
    rw [ht]
    simp [dispatch, ACTION_RESTART, hm]
  · intro hm
    have hp : 0 < s2.childpid := by
      by_cases hp : 0 < s.childpid
      · rw [child_process_exitcode_eq os s hp] at h1
        injection h1 with _ e2
        have hf := (run_watches_frame os (emit (.usleep SLEEP_TIME_MICROSECS) s1)).1
        rw [h2] at hf
        simp only [Res.state] at hf
        rw [hf, ← e2]
        exact hp
      · rw [child_process_exitcode_abort os s hp] at h1
        cases h1
    refine ⟨_, rfl, ?_⟩
    rw [ht]
    simp only [dispatch, ACTION_RESTART, hm, if_false, child_process_kill, hp, if_true, emit, die,
      List.append_assoc, List.singleton_append]

theorem signal_unless_action_is_minus_one_witness :
    child_process_exitcode osChangeThenDie sTerm0 = .ok (-1) sTerm1 ∧
      action_by_name "TERM".toList ≠ -1 ∧
      ∃ sK : State,
        sK = { sTerm2 with
               nkill := sTerm2.nkill + 1,
               trace := sTerm2.trace ++
                 [.signalling (action_by_name "TERM".toList) sTerm2.childpid,
                  .kill sTerm2.childpid (action_by_name "TERM".toList)
                    (osChangeThenDie.kill sTerm2.nkill sTerm2.childpid
                      (action_by_name "TERM".toList))] } ∧
        tick osChangeThenDie sTerm0 =
          if osChangeThenDie.kill sTerm2.nkill sTerm2.childpid
              (action_by_name "TERM".toList) ≠ 0
          then .halt (.exit 127) (emit (.perror "kill".toList) sK)
          else .ok () sK :=
  ⟨by decide, by decide,
    (signal_unless_action_is_minus_one osChangeThenDie "TERM".toList sTerm0 sTerm1 sTerm2 0
      { path := "f".toList, sig := SIGTERM, recent_mtime := 101 }
      (by decide) (by decide) (by decide) (by decide)).2.2 (by decide)⟩

/-! ## Too many watchspecs, missing separator, missing command -/

theorem register_watch_frame (os : OS) (raw : Str) (s : State) :
    (register_watch os raw s).state.childpid = s.childpid ∧
      (register_watch os raw s).state.SUBCOMMAND = s.SUBCOMMAND ∧
      (register_watch os raw s).state.nwait = s.nwait ∧
      (register_watch os raw s).state.nfork = s.nfork ∧
      (register_watch os raw s).state.nkill = s.nkill := by
  unfold register_watch
  by_cases h : s.watches.length = MAX_WATCHES
  · simp [h, die, Res.state, emit]
  · simp only [h, if_false]
    generalize hp : (match strrchr raw ':' with
      | some i => raw.take i
      | none => raw) = path
    generalize hg : (match strrchr raw ':' with
      | some i => action_by_name (raw.drop (i + 1))
      | none => SIGKILL) = sig
    have hm := mtime_frame os path
      { s with watches := s.watches ++ [{ path := path, sig := sig, recent_mtime := 0 }] }
    cases hr : mtime os path
      { s with watches := s.watches ++ [{ path := path, sig := sig, recent_mtime := 0 }] } with
    | ok m s2 =>
      rw [hr] at hm
      simpa [Res.state] using hm.2
    | halt hh s2 =>
      rw [hr] at hm
      simpa [Res.state] using hm.2

theorem registerAll_overflow (os : OS) (ws : List Str) (rest : List (Option Str)) (s : State)
    (hle : watch_count s ≤ MAX_WATCHES) (hover : MAX_WATCHES < watch_count s + ws.length) :
    ∃ s1, registerAll os (ws.map some ++ rest) s = .halt (.exit 127) s1 ∧
      s1.childpid = s.childpid ∧ s1.nfork = s.nfork := by
  induction ws generalizing s with
  | nil => simp at hover; omega
  | cons w ws ih =>
    have hframe := register_watch_frame os w s
    simp only [List.map_cons, List.cons_append, registerAll]
    by_cases hfull : s.watches.length = MAX_WATCHES
    · rw [register_watch_full os w s hfull]
      exact ⟨_, rfl, rfl, rfl⟩
    · obtain ⟨m, hw, hres⟩ := register_watch_room os w s hfull
      rcases hres with ⟨s1, h1⟩ | ⟨s1, h1⟩
      · rw [h1] at hw hframe
        simp only [Res.state] at hw hframe
        rw [h1]
        have hlen : s1.watches.length = s.watches.length + 1 := by simp [hw]
        unfold watch_count at hle hover ih
        simp only [List.length_cons] at hover
        obtain ⟨s2, e2, c1, c2⟩ := ih s1 (by omega) (by omega)
        exact ⟨s2, e2, c1.trans hframe.1, c2.trans hframe.2.2.2.1⟩
      · rw [h1] at hframe
        rw [h1]
        exact ⟨s1, rfl, hframe.1, hframe.2.2.2.1⟩

/-- With eighteen or more watchspecs startup exits with status 127 and no
child is forked: the watchspecs after the first make at least seventeen
registrations. -/
theorem eighteen_watchspecs_exit (os : OS) (prog w : Str) (ws cmd : List Str) (fuel : Nat)
    (hw : w ≠ sep) (hws : sep ∉ ws) (hlen : 17 ≤ ws.length) :
    ∃ s, main os (prog :: w :: ws ++ sep :: cmd) fuel = .halt (.exit 127) s ∧ s.nfork = 0 := by
  obtain ⟨s1, e1, _, c2⟩ := registerAll_overflow os ws (none :: (cmd.map some ++ [none]))
    { State.init with SUBCOMMAND := some cmd }
    (by simp [watch_count, State.init])
    (by simp only [watch_count, State.init, MAX_WATCHES, List.length_nil]; omega)
  refine ⟨s1, ?_, c2⟩
  unfold main
  rw [startup_registers_tail os prog w ws cmd hw hws, e1]

/-- Claim C11, refuted on the code: with exactly seventeen watchspecs before
the separator startup returns normally with sixteen watches registered, and
`main` goes on to fork the child; the program does not exit with 127. -/
theorem seventeen_watchspecs_start_child :
    startup osFiles argvSeventeen = .ok () (startup osFiles argvSeventeen).state ∧
      watch_count (startup osFiles argvSeventeen).state = 16 ∧
      main osFiles argvSeventeen 0 = .ok () (main osFiles argvSeventeen 0).state ∧
      (main osFiles argvSeventeen 0).state.trace.getLast? = some (.fork 77) := by
  decide

theorem scanArgs_no_separator (args : List Str) (i : Nat) (w0 : Option Nat)
    (h : sep ∉ args) : (scanArgs (args.map some ++ [none]) i w0).SUBCOMMAND = none := by
  induction args generalizing i w0 with
  | nil => rfl
  | cons a args ih =>
    have ha : a ≠ "--".toList := fun e => h (by simp [sep, e])
    have h2 : sep ∉ args := fun e => h (List.mem_cons_of_mem _ e)
    simp only [List.map_cons, List.cons_append, scanArgs, ha, if_false]
    exact ih _ _ h2

/-- Claim C16: when no argument of the command line is the separator `--`,
the program prints the usage message and exits with status 1; it has
registered no watch and made no system call, so no child was forked. -/
theorem missing_separator_exits (os : OS) (prog : Str) (args : List Str) (fuel : Nat)
    (h : sep ∉ args) :
    main os (prog :: args) fuel = .halt (.exit 1) (emit .usageMsg State.init) ∧
      (main os (prog :: args) fuel).state.trace = [.usageMsg] ∧
      (main os (prog :: args) fuel).state.watches = [] ∧
      (main os (prog :: args) fuel).state.nfork = 0 := by
  have hs : startup os (prog :: args) = .halt (.exit 1) (emit .usageMsg State.init) := by
    unfold startup
    have := scanArgs_no_separator args 1 none h
    simp only [List.map_cons, List.cons_append, List.drop_succ_cons, List.drop_zero]
    rw [this]
    cases (scanArgs (List.map some args ++ [none]) 1 none).watches <;> rfl
  unfold main
  rw [hs]
  exact ⟨rfl, rfl, rfl, rfl⟩

theorem missing_separator_exits_witness :
    sep ∉ ["f".toList, "sleep".toList, "100".toList] ∧
      main osFiles ["prog".toList, "f".toList, "sleep".toList, "100".toList] 5 =
        .halt (.exit 1) (emit .usageMsg State.init) :=
  ⟨by decide,
    (missing_separator_exits osFiles "prog".toList ["f".toList, "sleep".toList, "100".toList] 5
      (by decide)).1⟩

/-- With no watchspec before the separator the program prints the usage
message and exits with status 1 without forking. -/
theorem missing_watch_list_exits (os : OS) (prog : Str) (cmd : List Str) (fuel : Nat) :
    main os (prog :: sep :: cmd) fuel =
      .halt (.exit 1) (emit .usageMsg { State.init with SUBCOMMAND := some cmd }) := by
  simp [main, startup, scanArgs, sep, strings_map_some, usage]

/-- Claim C17, refuted on the code for the missing command: on the command
line `prog f --` startup returns normally with an empty command, no usage
message is printed, and `main` forks; with a child that cannot execute
anything and is reaped with status 127, the program exits with 127, and with
a child that is terminated by signal 11 in the attempt, the program exits
with 0. -/
theorem missing_command_forks :
    startup osExecFails argvNoCommand = .ok () { State.init with SUBCOMMAND := some [] } ∧
      main osExecFails argvNoCommand 1 =
        .halt (.exit 127)
          { State.init with
            childpid := 77, SUBCOMMAND := some [], nfork := 1, nwait := 1,
            trace := [.fork 77, .waitpid 77 { ret := 77, status := exitedStatus 127 }] } ∧
      main osChildCrashes argvNoCommand 1 =
        .halt (.exit 0)
          { State.init with
            childpid := 77, SUBCOMMAND := some [], nfork := 1, nwait := 1,
            trace := [.fork 77, .waitpid 77 { ret := 77, status := signaledStatus 11 0 }] } := by
  decide

/-! ## Snapshot and compare -/

theorem mtime_of_state (os : OS) (path : Str) (s : State) (τ : ModState)
    (h : os.stat s.nstat path = statOf τ) :
    mtime os path s =
      .ok (encode τ)
        { s with nstat := s.nstat + 1, trace := s.trace ++ [.stat path (statOf τ)] } := by
  unfold mtime
  rw [h]
  cases τ <;> rfl

theorem get?_setMtime_self (ws : List Watch) (i : Nat) (w : Watch) (m : Int)
    (h : ws.get? i = some w) :
    (setMtime ws i m).get? i = some { w with recent_mtime := m } := by
  induction ws generalizing i with
  | nil => simp at h
  | cons x xs ih =>
    cases i with
    | zero =>
      simp only [List.get?_cons_zero, Option.some.injEq] at h
      subst h
      rfl
    | succ i =>
      simp only [List.get?_cons_succ] at h
      simpa [setMtime] using ih i h

theorem run_watch_of_state (os : OS) (i : Nat) (s : State) (w : Watch) (τ : ModState)
    (hw : s.watches.get? i = some w) (hτ : os.stat s.nstat w.path = statOf τ) :
    run_watch os i s =
      .ok (w.recent_mtime != encode τ)
        { s with watches := setMtime s.watches i (encode τ), nstat := s.nstat + 1,
                 trace := s.trace ++ [.stat w.path (statOf τ)] } := by
  unfold run_watch
  rw [hw]
  simp only
  rw [mtime_of_state os w.path s τ hτ]

/-- Claim C12 fails as stated: a watch registered while `f` is present with
modification time -1 reports no change when `f` then disappears, none when
`f` reappears with modification time 2^32 - 1, and none when that time
changes to -1, although the state of `f` differs at every step; -1 also
stands for "absent", and the time is cut to 32 bits. -/
theorem state_changes_not_reported :
    statOf (some (-1)) ≠ statOf none ∧ statOf none ≠ statOf (some 4294967295) ∧
      statOf (some 4294967295) ≠ statOf (some (-1)) ∧
      osCollide.stat 0 "f".toList = statOf (some (-1)) ∧
      osCollide.stat 1 "f".toList = statOf none ∧
      osCollide.stat 2 "f".toList = statOf (some 4294967295) ∧
      osCollide.stat 3 "f".toList = statOf (some (-1)) ∧
      run_watch_times osCollide 0 3 (register_watch osCollide "f".toList State.init).state =
        [false, false, false] := by
  decide

/-- Claim C12, as amended: when `stat` answers for the modification state
`τ` of the path, `run_watch` returns, replaces the stored value by the `int`
of `τ` (-1 for absent, the modification time cut to 32 bits for present) and
reports a change exactly when that `int` differs from the one stored for the
previous state `σ`.  So a transition between absent and present with time
`t` is reported exactly when the `int` of `t` is not -1, and two present
states are reported equal exactly when their times agree as 32-bit `int`s,
which for times within the `int` range means that they are equal. -/
theorem run_watch_compares_stored_int (os : OS) (i : Nat) (s : State) (w : Watch)
    (σ τ : ModState)
    (hw : s.watches.get? i = some w) (hσ : w.recent_mtime = encode σ)
    (hτ : os.stat s.nstat w.path = statOf τ) :
    run_watch os i s =
        .ok (encode σ != encode τ)
          { s with watches := setMtime s.watches i (encode τ), nstat := s.nstat + 1,
                   trace := s.trace ++ [.stat w.path (statOf τ)] } ∧
      (setMtime s.watches i (encode τ)).get? i = some { w with recent_mtime := encode τ } ∧
      (∀ t : Int, (encode none != encode (some t)) = true ↔ toInt32 t ≠ -1) ∧
      (∀ t : Int, (encode (some t) != encode none) = true ↔ toInt32 t ≠ -1) ∧
      (∀ t1 t2 : Int, (encode (some t1) != encode (some t2)) = false ↔
        toInt32 t1 = toInt32 t2) ∧
      (∀ t : Int, -(2 ^ 31) ≤ t → t < 2 ^ 31 → toInt32 t = t) := by
  refine ⟨?_, get?_setMtime_self _ _ _ _ hw, ?_, ?_, ?_, ?_⟩
  · rw [run_watch_of_state os i s w τ hw hτ, hσ]
  · intro t
    simp only [encode, bne_iff_ne, ne_eq]
    exact ⟨fun h e => h e.symm, fun h e => h e.symm⟩
  · intro t
    simp [encode]
  · intro t1 t2
    simp [encode]
  · intro t h1 h2
    unfold toInt32
    omega

theorem run_watch_compares_stored_int_witness :
    run_watch osCreated 0 (register_watch osCreated "f".toList State.init).state =
      .ok (encode none != encode (some 100))
        { (register_watch osCreated "f".toList State.init).state with
          watches := setMtime (register_watch osCreated "f".toList State.init).state.watches 0
            (encode (some 100)),
          nstat := (register_watch osCreated "f".toList State.init).state.nstat + 1,
          trace := (register_watch osCreated "f".toList State.init).state.trace ++
            [.stat "f".toList (statOf (some 100))] } :=
  (run_watch_compares_stored_int osCreated 0
    (register_watch osCreated "f".toList State.init).state
    { path := "f".toList, sig := SIGKILL, recent_mtime := -1 } none (some 100)
    (by decide) (by decide) (by decide)).1

/-! ## A change is reported once -/

theorem register_watch_of_state (os : OS) (raw : Str) (s : State) (τ : ModState)
    (hroom : s.watches.length ≠ MAX_WATCHES)
    (hτ : os.stat s.nstat (pathOf raw) = statOf τ) :
    register_watch os raw s =
      .ok ()
        { s with
          watches := s.watches ++
            [{ path := pathOf raw,
               sig := (match strrchr raw ':' with
                 | some i => action_by_name (raw.drop (i + 1))
                 | none => SIGKILL),
               recent_mtime := encode τ }],
          nstat := s.nstat + 1,
          trace := s.trace ++ [.stat (pathOf raw) (statOf τ)] } := by
  unfold register_watch
  simp only [hroom, if_false]
  have hp : (match strrchr raw ':' with
      | some i => raw.take i
      | none => raw) = pathOf raw := rfl
  rw [hp]
  rw [mtime_of_state os (pathOf raw)
    { s with watches := s.watches ++
        [{ path := pathOf raw,
           sig := (match strrchr raw ':' with
             | some i => action_by_name (raw.drop (i + 1))
             | none => SIGKILL),
           recent_mtime := 0 }] } τ hτ]
  simp only [setMtime_last]

theorem run_watch_times_same (os : OS) (i n : Nat) (s : State) (w : Watch) (τ : ModState)
    (hw : s.watches.get? i = some w) (hσ : w.recent_mtime = encode τ)
    (hτ : ∀ k, os.stat (s.nstat + k) w.path = statOf τ) :
    run_watch_times os i n s = List.replicate n false := by
  induction n generalizing s w with
  | zero => rfl
  | succ n ih =>
    unfold run_watch_times
    rw [run_watch_of_state os i s w τ hw (by simpa using hτ 0)]
    simp only [hσ, bne_self_eq_false, List.replicate_succ, List.cons.injEq, true_and]
    apply ih _ { w with recent_mtime := encode τ } (get?_setMtime_self _ _ _ _ hw) rfl
    intro k
    have := hτ (1 + k)
    simpa [Nat.add_assoc] using this

/-- Claim C13 fails as stated: a watch is registered on `f` while `f` does not
exist, `f` is then created with modification time -1, and the next
`run_watch` reports no change. -/
theorem creation_not_reported :
    osCreatedMinusOne.stat 0 "f".toList = statOf none ∧
      osCreatedMinusOne.stat 1 "f".toList = statOf (some (-1)) ∧
      (register_watch osCreatedMinusOne "f".toList State.init).state.watches =
        [{ path := "f".toList, sig := SIGKILL, recent_mtime := -1 }] ∧
      run_watch_times osCreatedMinusOne 0 1
        (register_watch osCreatedMinusOne "f".toList State.init).state = [false] := by
  decide

/-- Claim C13, as amended: a watch registered on a path that does not exist
stores -1 (absent); if the path is then created with a modification time `t`
whose `int` value is not -1 and stays as it is, the next `run_watch` reports
a change and each of the `n` calls after it reports none.  And whenever two
successive calls of `run_watch` on a watch see the path in the same state,
the second reports no change. -/
theorem change_reported_once (os : OS) (raw : Str) (s : State) (t : Int) (n : Nat)
    (hroom : watch_count s ≠ MAX_WATCHES)
    (habsent : os.stat s.nstat (pathOf raw) = statOf none)
    (hcreated : ∀ k, os.stat (s.nstat + 1 + k) (pathOf raw) = statOf (some t))
    (ht : toInt32 t ≠ -1) :
    (∃ s1 w, register_watch os raw s = .ok () s1 ∧ s1.watches = s.watches ++ [w] ∧
        w.path = pathOf raw ∧ w.recent_mtime = -1 ∧
        run_watch_times os s.watches.length (n + 1) s1 = true :: List.replicate n false) ∧
      (∀ (s0 : State) (i : Nat) (w0 : Watch) (τ : ModState),
        s0.watches.get? i = some w0 → os.stat s0.nstat w0.path = statOf τ →
        os.stat (s0.nstat + 1) w0.path = statOf τ →
        ∃ b sa sb, run_watch os i s0 = .ok b sa ∧ run_watch os i sa = .ok false sb) := by
  constructor
  · have hreg := register_watch_of_state os raw s none hroom habsent
    refine ⟨_, _, hreg, rfl, rfl, rfl, ?_⟩
    have hget : ∀ (ws : List Watch) (w : Watch), (ws ++ [w]).get? ws.length = some w := by
      intro ws w
      simp
    unfold run_watch_times
    rw [run_watch_of_state os s.watches.length _ _ (some t) (hget _ _)
      (by simpa using hcreated 0)]
    have hne : ((-1 : Int) != toInt32 t) = true := by
      simp only [bne_iff_ne, ne_eq]
      exact fun e => ht e.symm
    simp only [encode, hne, List.cons.injEq, true_and]
    apply run_watch_times_same os _ n _
      { path := pathOf raw,
        sig := (match strrchr raw ':' with
          | some i => action_by_name (raw.drop (i + 1))
          | none => SIGKILL),
        recent_mtime := toInt32 t } (some t)
    · rw [setMtime_last]
      exact hget _ _
    · rfl
    · intro k
      show os.stat (s.nstat + 1 + 1 + k) (pathOf raw) = statOf (some t)
      have := hcreated (1 + k)
      rwa [show s.nstat + 1 + (1 + k) = s.nstat + 1 + 1 + k by omega] at this
  · intro s0 i w0 τ hw h0 h1
    have h2 := run_watch_of_state os i
      { s0 with watches := setMtime s0.watches i (encode τ), nstat := s0.nstat + 1,
                trace := s0.trace ++ [.stat w0.path (statOf τ)] }
      { w0 with recent_mtime := encode τ } τ (get?_setMtime_self _ _ _ _ hw) h1
    simp only [bne_self_eq_false] at h2
    exact ⟨_, _, _, run_watch_of_state os i s0 w0 τ hw h0, h2⟩

theorem change_reported_once_witness :
    ∃ s1 w, register_watch osCreated "f:HUP".toList State.init = .ok () s1 ∧
      s1.watches = State.init.watches ++ [w] ∧
      w.path = pathOf "f:HUP".toList ∧ w.recent_mtime = -1 ∧
      run_watch_times osCreated State.init.watches.length (3 + 1) s1 =
        true :: List.replicate 3 false :=
  (change_reported_once osCreated "f:HUP".toList State.init 100 3 (by decide) (by decide)
    (fun k => by simp [osCreated, State.init, statOf]) (by decide)).1

/-! ## One pass over the registry -/

theorem differs_refresh (fs : Str → ModState) (w : Watch) :
    differs fs (refresh fs w) = false := by
  simp [differs, refresh, current]

theorem refresh_of_not_differs (fs : Str → ModState) (w : Watch)
    (h : differs fs w = false) : refresh fs w = w := by
  simp only [differs, bne_eq_false_iff_eq] at h
  cases w
  simp only [refresh, Watch.mk.injEq, true_and]
  exact h.symm

theorem firstChanged_some (fs : Str → ModState) (ws : List Watch) (i : Nat)
    (h : firstChanged fs ws = some i) :
    (∃ w, ws.get? i = some w ∧ differs fs w = true) ∧
      (∀ j w, j < i → ws.get? j = some w → differs fs w = false) ∧
      scanned fs ws = (ws.take (i + 1)).map (refresh fs) ++ ws.drop (i + 1) := by
  induction ws generalizing i with
  | nil => simp [firstChanged] at h
  | cons x xs ih =>
    unfold firstChanged at h
    by_cases hx : differs fs x = true
    · simp only [hx, if_true, Option.some.injEq] at h
      subst h
      refine ⟨⟨x, rfl, hx⟩, fun j w hj => absurd hj (Nat.not_lt_zero _), ?_⟩
      simp [scanned, hx]
    · have hx2 : differs fs x = false := by simpa using hx
      rw [hx2] at h
      simp only [Bool.false_eq_true, if_false] at h
      cases hk : firstChanged fs xs with
      | none => simp [hk] at h
      | some k =>
        rw [hk] at h
        simp only [Option.map_some', Option.some.injEq] at h
        subst h
        obtain ⟨⟨w, hw, hd⟩, hlt, hsc⟩ := ih k hk
        refine ⟨⟨w, by simpa using hw, hd⟩, ?_, ?_⟩
        · intro j w1 hj hw1
          cases j with
          | zero =>
            simp only [List.get?_cons_zero, Option.some.injEq] at hw1
            subst hw1
            exact hx2
          | succ j =>
            simp only [List.get?_cons_succ] at hw1
            exact hlt j w1 (by omega) hw1
        · simp [scanned, hx2, hsc]

theorem firstChanged_none (fs : Str → ModState) (ws : List Watch) :
    (firstChanged fs ws = none ↔ ∀ w ∈ ws, differs fs w = false) ∧
      (firstChanged fs ws = none → scanned fs ws = ws.map (refresh fs)) := by
  induction ws with
  | nil => simp [firstChanged, scanned]
  | cons x xs ih =>
    unfold firstChanged
    by_cases hx : differs fs x = true
    · simp [hx]
    · have hx2 : differs fs x = false := by simpa using hx
      rw [hx2]
      simp only [Bool.false_eq_true, if_false, Option.map_eq_none', List.mem_cons,
        forall_eq_or_imp, hx2, true_and]
      refine ⟨ih.1, fun h => ?_⟩
      simp [scanned, hx2, ih.2 h]

theorem scanned_frame (fs : Str → ModState) (ws : List Watch) :
    (scanned fs ws).length = ws.length ∧
      (scanned fs ws).map Watch.path = ws.map Watch.path ∧
      (scanned fs ws).map Watch.sig = ws.map Watch.sig := by
  induction ws with
  | nil => simp [scanned]
  | cons x xs ih =>
    unfold scanned
    by_cases hx : differs fs x = true
    · simp [hx, refresh]
    · simp [hx, refresh, ih]

theorem setMtime_append (pre : List Watch) (w : Watch) (ws : List Watch) (m : Int) :
    setMtime (pre ++ w :: ws) pre.length m = pre ++ { w with recent_mtime := m } :: ws := by
  induction pre with
  | nil => rfl
  | cons x xs ih => simp [setMtime, ih]

theorem get?_append_length (pre : List Watch) (w : Watch) (ws : List Watch) :
    (pre ++ w :: ws).get? pre.length = some w := by
  induction pre with
  | nil => rfl
  | cons x xs ih => simpa using ih

theorem run_watches_from_scan (os : OS) (fs : Str → ModState)
    (hfix : ∀ t p, os.stat t p = statOf (fs p)) (rest pre : List Watch) (s : State)
    (hs : s.watches = pre ++ rest) :
    ∃ s1, run_watches_from os rest.length pre.length s =
        .ok ((firstChanged fs rest).map (· + pre.length)) s1 ∧
      s1.watches = pre ++ scanned fs rest := by
  induction rest generalizing pre s with
  | nil => exact ⟨s, rfl, by simp [hs, scanned]⟩
  | cons w ws ih =>
    have hget : s.watches.get? pre.length = some w := by
      rw [hs]
      exact get?_append_length pre w ws
    simp only [List.length_cons, run_watches_from]
    rw [run_watch_of_state os pre.length s w (fs w.path) hget (hfix _ _)]
    by_cases hd : differs fs w = true
    · have hd2 : (w.recent_mtime != encode (fs w.path)) = true := hd
      simp only [hd2]
      refine ⟨{ s with watches := setMtime s.watches pre.length (encode (fs w.path)),
                       nstat := s.nstat + 1,
                       trace := s.trace ++ [.stat w.path (statOf (fs w.path))] }, ?_, ?_⟩
      · simp [firstChanged, hd]
      · simp only [hs, setMtime_append, scanned, hd, if_true]
        rfl
    · have hd2 : (w.recent_mtime != encode (fs w.path)) = false := by
        simpa [differs, current] using hd
      simp only [hd2]
      obtain ⟨s1, e1, hw1⟩ := ih (pre ++ [refresh fs w])
        { s with watches := setMtime s.watches pre.length (encode (fs w.path)),
                 nstat := s.nstat + 1,
                 trace := s.trace ++ [.stat w.path (statOf (fs w.path))] }
        (by simp only [hs, setMtime_append]; simp [refresh, current])
      simp only [List.length_append, List.length_singleton] at e1
      refine ⟨s1, ?_, ?_⟩
      · rw [e1]
        simp only [firstChanged, hd, if_false, Option.map_map]
        congr 1
        cases firstChanged fs ws with
        | none => rfl
        | some k => simp [Nat.add_comm, Nat.add_left_comm, Nat.add_assoc]
      · rw [hw1]
        simp [scanned, hd]

theorem run_watches_scan (os : OS) (fs : Str → ModState)
    (hfix : ∀ t p, os.stat t p = statOf (fs p)) (s : State) :
    ∃ s1, run_watches os s = .ok (firstChanged fs s.watches) s1 ∧
      s1.watches = scanned fs s.watches := by
  obtain ⟨s1, e1, h1⟩ := run_watches_from_scan os fs hfix s.watches [] s rfl
  refine ⟨s1, ?_, by simpa using h1⟩
  unfold run_watches watch_count
  simp only [List.length_nil] at e1
  rw [e1]
  cases firstChanged fs s.watches <;> simp

theorem polled_of_firstChanged (fs : Str → ModState) (ws : List Watch) :
    (∀ i, firstChanged fs ws = some i → polled fs ws = ws.take (i + 1)) ∧
      (firstChanged fs ws = none → polled fs ws = ws) := by
  induction ws with
  | nil => simp [firstChanged, polled]
  | cons x xs ih =>
    by_cases hx : differs fs x = true
    · simp [firstChanged, polled, hx]
    · have hx2 : differs fs x = false := by simpa using hx
      constructor
      · intro i hi
        simp only [firstChanged, hx2, Bool.false_eq_true, if_false] at hi
        cases hk : firstChanged fs xs with
        | none => simp [hk] at hi
        | some k =>
          rw [hk] at hi
          simp only [Option.map_some', Option.some.injEq] at hi
          subst hi
          simp [polled, hx2, ih.1 k hk]
      · intro hn
        simp only [firstChanged, hx2, Bool.false_eq_true, if_false, Option.map_eq_none'] at hn
        simp [polled, hx2, ih.2 hn]

theorem run_watches_from_stats (os : OS) (fs : Str → ModState)
    (hfix : ∀ t p, os.stat t p = statOf (fs p)) (rest pre : List Watch) (s : State)
    (hs : s.watches = pre ++ rest) :
    (run_watches_from os rest.length pre.length s).state.nstat =
        s.nstat + (polled fs rest).length ∧
      (run_watches_from os rest.length pre.length s).state.trace =
        s.trace ++ statEvents fs (polled fs rest) := by
  induction rest generalizing pre s with
  | nil => simp [run_watches_from, Res.state, polled, statEvents]
  | cons w ws ih =>
    have hget : s.watches.get? pre.length = some w := by
      rw [hs]
      exact get?_append_length pre w ws
    simp only [List.length_cons, run_watches_from]
    rw [run_watch_of_state os pre.length s w (fs w.path) hget (hfix _ _)]
    by_cases hd : differs fs w = true
    · have hd2 : (w.recent_mtime != encode (fs w.path)) = true := hd
      simp [hd2, Res.state, polled, hd, statEvents]
    · have hd3 : differs fs w = false := by simpa using hd
      have hd2 : (w.recent_mtime != encode (fs w.path)) = false := hd3
      simp only [hd2]
      obtain ⟨e1, e2⟩ := ih (pre ++ [refresh fs w])
        { s with watches := setMtime s.watches pre.length (encode (fs w.path)),
                 nstat := s.nstat + 1,
                 trace := s.trace ++ [.stat w.path (statOf (fs w.path))] }
        (by simp only [hs, setMtime_append]; simp [refresh, current])
      simp only [List.length_append, List.length_singleton] at e1 e2
      rw [e1, e2]
      simp [polled, hd3, statEvents]
      omega

/-- Claim C14 fails as stated: `f` is registered while it does not exist and
`g` while its modification time is 100; then `f` exists with modification
time -1 and `g` has modification time 200.  The state of both watches
differs from the stored one, yet `run_watches` returns the index 1, not 0:
for the watch of `f` the stored -1 equals the `int` of the new state. -/
theorem first_changed_watch_skipped :
    osTwoFiles.stat 0 "f".toList = statOf none ∧
      osTwoFiles.stat 1 "g".toList = statOf (some 100) ∧
      osTwoFiles.stat 2 "f".toList = statOf (some (-1)) ∧
      osTwoFiles.stat 3 "g".toList = statOf (some 200) ∧
      (none : ModState) ≠ some (-1) ∧
      sTwoFiles.watches.map Watch.path = ["f".toList, "g".toList] ∧
      sTwoFiles.nstat = 2 ∧
      (run_watches osTwoFiles sTwoFiles).val? = some (some 1) := by
  decide

/-- Claim C14, as amended: in a file system that answers every `stat` for the
state `fs`, `run_watches` returns, and "differs" is the comparison of
`run_watch`: the stored `int` is not the `int` of the current state.  When
it returns the index `i`, the watch `i` differs, no watch before it differs,
the watches up to and including `i` have been refreshed and the ones after
`i` are as they were, and exactly the watches up to and including `i` have
been looked up with `stat`, in order; it returns `none` exactly when no watch
differs, and then every watch has been looked up once and refreshed; the
number of watches, their paths and their actions are unchanged. -/
theorem run_watches_first_changed (os : OS) (fs : Str → ModState) (s : State)
    (hfix : ∀ t p, os.stat t p = statOf (fs p)) :
    ∃ r s1, run_watches os s = .ok r s1 ∧
      (∀ i, r = some i →
        (∃ w, s.watches.get? i = some w ∧ differs fs w = true) ∧
          (∀ j w, j < i → s.watches.get? j = some w → differs fs w = false) ∧
          s1.watches = (s.watches.take (i + 1)).map (refresh fs) ++ s.watches.drop (i + 1) ∧
          s1.nstat = s.nstat + (s.watches.take (i + 1)).length ∧
          s1.trace = s.trace ++ statEvents fs (s.watches.take (i + 1))) ∧
      (r = none ↔ ∀ w ∈ s.watches, differs fs w = false) ∧
      (r = none → s1.watches = s.watches.map (refresh fs) ∧
        s1.nstat = s.nstat + s.watches.length ∧
        s1.trace = s.trace ++ statEvents fs s.watches) ∧
      s1.watches.length = s.watches.length ∧
      s1.watches.map Watch.path = s.watches.map Watch.path ∧
      s1.watches.map Watch.sig = s.watches.map Watch.sig := by
  obtain ⟨s1, e1, h1⟩ := run_watches_scan os fs hfix s
  have hf := scanned_frame fs s.watches
  have hst := run_watches_from_stats os fs hfix s.watches [] s rfl
  have hrun : run_watches_from os s.watches.length 0 s = .ok (firstChanged fs s.watches) s1 := e1
  simp only [List.length_nil, hrun, Res.state] at hst
  obtain ⟨hp1, hp2⟩ := polled_of_firstChanged fs s.watches
  refine ⟨_, s1, e1, ?_, (firstChanged_none fs s.watches).1, ?_, ?_, ?_, ?_⟩
  · intro i hi
    obtain ⟨a, b, c⟩ := firstChanged_some fs s.watches i hi
    refine ⟨a, b, h1.trans c, ?_, ?_⟩
    · rw [hst.1, hp1 i hi]
    · rw [hst.2, hp1 i hi]
  · intro hn
    refine ⟨h1.trans ((firstChanged_none fs s.watches).2 hn), ?_, ?_⟩
    · rw [hst.1, hp2 hn]
    · rw [hst.2, hp2 hn]
  · rw [h1]; exact hf.1
  · rw [h1]; exact hf.2.1
  · rw [h1]; exact hf.2.2

theorem run_watches_first_changed_witness :
    ∃ s1, run_watches osAB sFour = .ok (some 1) s1 ∧
      s1.watches =
        [{ path := "a".toList, sig := SIGKILL, recent_mtime := 100 },
         { path := "b".toList, sig := SIGHUP, recent_mtime := 200 },
         { path := "c".toList, sig := ACTION_RESTART, recent_mtime := 5 },
         { path := "a".toList, sig := SIGTERM, recent_mtime := -1 }] ∧
      s1.trace = [.stat "a".toList (.ok 100), .stat "b".toList (.ok 200)] := by
  obtain ⟨r, s1, e, h, _⟩ := run_watches_first_changed osAB fsAB sFour (fun _ _ => rfl)
  have hr : r = some 1 := by
    have : run_watches osAB sFour = .ok (some 1) (run_watches osAB sFour).state := by decide
    rw [this] at e
    injection e with e1 _
    exact e1.symm
  subst hr
  refine ⟨s1, e, ?_, ?_⟩
  · rw [(h 1 rfl).2.2.1]
    decide
  · rw [(h 1 rfl).2.2.2.2]
    decide

/-! ## No change is lost -/

theorem changedFrom_scanned (fs : Str → ModState) (k : Nat) (ws : List Watch) :
    changedFrom fs k (scanned fs ws) = (changedFrom fs k ws).tail ∧
      (changedFrom fs k ws).head? = (firstChanged fs ws).map (· + k) := by
  induction ws generalizing k with
  | nil => simp [changedFrom, scanned, firstChanged]
  | cons x xs ih =>
    by_cases hx : differs fs x = true
    · simp [changedFrom, scanned, firstChanged, hx, differs_refresh]
    · have hx2 : differs fs x = false := by simpa using hx
      obtain ⟨h1, h2⟩ := ih (k + 1)
      constructor
      · simp [changedFrom, scanned, hx2, differs_refresh, h1]
      · simp only [changedFrom, firstChanged, hx2, Bool.false_eq_true, if_false, h2,
          Option.map_map]
        cases firstChanged fs xs with
        | none => rfl
        | some j => simp [Nat.add_comm, Nat.add_left_comm]

theorem mem_changedFrom (fs : Str → ModState) (k : Nat) (ws : List Watch) (i : Nat) :
    i ∈ changedFrom fs k ws ↔
      k ≤ i ∧ ∃ w, ws.get? (i - k) = some w ∧ differs fs w = true := by
  induction ws generalizing k with
  | nil => simp [changedFrom]
  | cons x xs ih =>
    have hstep : (k + 1 ≤ i ∧ ∃ w, xs.get? (i - (k + 1)) = some w ∧ differs fs w = true) ↔
        (k < i ∧ ∃ w, (x :: xs).get? (i - k) = some w ∧ differs fs w = true) := by
      constructor
      · rintro ⟨h1, w, h2, h3⟩
        refine ⟨h1, w, ?_, h3⟩
        have : i - k = (i - (k + 1)) + 1 := by omega
        rw [this]
        simpa using h2
      · rintro ⟨h1, w, h2, h3⟩
        refine ⟨h1, w, ?_, h3⟩
        have : i - k = (i - (k + 1)) + 1 := by omega
        rw [this] at h2
        simpa using h2
    by_cases hx : differs fs x = true
    · simp only [changedFrom, hx, if_true, List.mem_cons, ih, hstep]
      constructor
      · rintro (rfl | ⟨h1, h2⟩)
        · exact ⟨Nat.le_refl _, x, by simp, hx⟩
        · exact ⟨Nat.le_of_lt h1, h2⟩
      · rintro ⟨h1, h2⟩
        by_cases hik : i = k
        · exact Or.inl hik
        · exact Or.inr ⟨by omega, h2⟩
    · have hx2 : differs fs x = false := by simpa using hx
      simp only [changedFrom, hx2, Bool.false_eq_true, if_false, ih, hstep]
      constructor
      · rintro ⟨h1, h2⟩
        exact ⟨Nat.le_of_lt h1, h2⟩
      · rintro ⟨h1, w, h2, h3⟩
        by_cases hik : i = k
        · subst hik
          simp only [Nat.sub_self, List.get?_cons_zero, Option.some.injEq] at h2
          subst h2
          exact absurd h3 hx
        · exact ⟨by omega, w, h2, h3⟩

theorem changedFrom_increasing (fs : Str → ModState) (k : Nat) (ws : List Watch) :
    (changedFrom fs k ws).Pairwise (· < ·) := by
  induction ws generalizing k with
  | nil => simp [changedFrom]
  | cons x xs ih =>
    unfold changedFrom
    split
    · rw [List.pairwise_cons]
      refine ⟨?_, ih (k + 1)⟩
      intro j hj
      have := ((mem_changedFrom fs (k + 1) xs j).mp hj).1
      omega
    · exact ih (k + 1)

theorem run_watches_times_eq (os : OS) (fs : Str → ModState)
    (hfix : ∀ t p, os.stat t p = statOf (fs p)) (n : Nat) (s : State) :
    run_watches_times os n s = oncePerCall n (changedFrom fs 0 s.watches) := by
  induction n generalizing s with
  | zero => rfl
  | succ n ih =>
    obtain ⟨s1, e1, h1⟩ := run_watches_scan os fs hfix s
    obtain ⟨ht, hh⟩ := changedFrom_scanned fs 0 s.watches
    unfold run_watches_times
    rw [e1]
    simp only
    rw [ih s1, h1, ht]
    cases hD : changedFrom fs 0 s.watches with
    | nil =>
      rw [hD] at hh
      cases hf : firstChanged fs s.watches with
      | none => rfl
      | some k => simp [hf] at hh
    | cons d ds =>
      rw [hD] at hh
      cases hf : firstChanged fs s.watches with
      | none => simp [hf] at hh
      | some k =>
        simp only [hf, List.head?_cons, Option.map_some', Nat.add_zero,
          Option.some.injEq] at hh
        subst hh
        rfl

/-- Claim C19 fails as stated: a watch is registered on `f` while `f` does not
exist; `f` then exists with modification time -1 and stays so.  The stored
state differs from the file system, yet three successive calls of
`run_watches` all return `none`: the watch is never returned. -/
theorem changed_watch_never_returned :
    osCreatedMinusOne.stat 0 "f".toList = statOf none ∧
      osCreatedMinusOne.stat 1 "f".toList = statOf (some (-1)) ∧
      osCreatedMinusOne.stat 2 "f".toList = statOf (some (-1)) ∧
      osCreatedMinusOne.stat 3 "f".toList = statOf (some (-1)) ∧
      (none : ModState) ≠ some (-1) ∧
      run_watches_times osCreatedMinusOne 3
        (register_watch osCreatedMinusOne "f".toList State.init).state =
        [none, none, none] := by
  decide

/-- Claim C19, as amended: in a file system that answers every `stat` for the
same state `fs`, `n` successive calls of `run_watches` return the indices of
the watches that differ from `fs` in the comparison of `run_watch` (the
stored `int` is not the `int` of the current state), each once, in
increasing order, one per call, and `none` on every call after that. -/
theorem no_change_lost (os : OS) (fs : Str → ModState) (s : State) (n : Nat)
    (hfix : ∀ t p, os.stat t p = statOf (fs p)) :
    run_watches_times os n s = oncePerCall n (changedFrom fs 0 s.watches) ∧
      (∀ i, i ∈ changedFrom fs 0 s.watches ↔
        ∃ w, s.watches.get? i = some w ∧ differs fs w = true) ∧
      (changedFrom fs 0 s.watches).Pairwise (· < ·) := by
  refine ⟨run_watches_times_eq os fs hfix n s, ?_, changedFrom_increasing fs 0 s.watches⟩
  intro i
  rw [mem_changedFrom]
  simp

theorem no_change_lost_witness :
    run_watches_times osAB 5 sFour = [some 1, some 2, some 3, none, none] :=
  (no_change_lost osAB fsAB sFour 5 (fun _ _ => rfl)).1

/-! ## Kill and wait is bounded -/

theorem kill_and_wait_loop_runs_out (os : OS) (n loops : Nat) (s : State)
    (hp : 0 < s.childpid) (hl : 0 < loops) (hb : loops + n ≤ 100000)
    (hrun : ∀ j, j < n → (os.waitpid (s.nwait + j)).ret = 0) :
    kill_and_wait_loop os n loops s =
      .ok (-1) { s with nwait := s.nwait + n,
                        trace := s.trace ++ pollEvents os s.childpid s.nwait n } := by
  induction n generalizing loops s with
  | zero => simp [kill_and_wait_loop, pollEvents]
  | succ n ih =>
    have hmod : ¬ (loops % 100000 = 0) := by omega
    have h0 : (os.waitpid s.nwait).ret = 0 := by simpa using hrun 0 (Nat.succ_pos n)
    unfold kill_and_wait_loop
    simp only [hmod, if_false]
    rw [child_process_exitcode_eq os _ (by exact hp)]
    have hneg : ((-1 : Int) < 0) = True := by simp
    simp only [emit, h0, if_true, hneg]
    rw [ih (loops + 1) _ (by exact hp) (by omega) (by omega) (by
      intro j hj
      have := hrun (j + 1) (Nat.succ_lt_succ hj)
      simpa [Nat.add_assoc, Nat.add_comm 1 j] using this)]
    simp [pollEvents, Nat.add_assoc, Nat.add_comm 1 n]

theorem kill_and_wait_loop_first (os : OS) (n loops : Nat) (s : State) (k : Nat)
    (hp : 0 < s.childpid) (hl : 0 < loops) (hb : loops + n ≤ 100000) (hk : k < n)
    (hrun : ∀ j, j < k → (os.waitpid (s.nwait + j)).ret = 0)
    (hterm : (os.waitpid (s.nwait + k)).ret ≠ 0) :
    kill_and_wait_loop os n loops s =
      .ok (statusCode (os.waitpid (s.nwait + k)).status)
        { s with nwait := s.nwait + (k + 1),
                 trace := s.trace ++ pollEvents os s.childpid s.nwait (k + 1) ++
                   [.exited (statusCode (os.waitpid (s.nwait + k)).status)] } := by
  induction n generalizing loops s k with
  | zero => omega
  | succ n ih =>
    have hmod : ¬ (loops % 100000 = 0) := by omega
    unfold kill_and_wait_loop
    simp only [hmod, if_false]
    rw [child_process_exitcode_eq os _ (by exact hp)]
    cases k with
    | zero =>
      have h0 : ¬ (os.waitpid s.nwait).ret = 0 := by simpa using hterm
      have hnn : ¬ ((if WIFEXITED (os.waitpid s.nwait).status = true
          then WEXITSTATUS (os.waitpid s.nwait).status else 0) < 0) := by
        have := status_code_nonneg (os.waitpid s.nwait).status
        omega
      simp only [emit, h0, if_false, hnn]
      simp [pollEvents, statusCode]
    | succ k =>
      have h0 : (os.waitpid s.nwait).ret = 0 := by simpa using hrun 0 (Nat.succ_pos k)
      have hneg : ((-1 : Int) < 0) = True := by simp
      simp only [emit, h0, if_true, hneg]
      rw [ih (loops + 1) _ k (by exact hp) (by omega) (by omega) (by omega) (by
        intro j hj
        have := hrun (j + 1) (Nat.succ_lt_succ hj)
        simpa [Nat.add_assoc, Nat.add_comm 1 j] using this) (by
        simpa [Nat.add_assoc, Nat.add_comm 1 k] using hterm)]
      simp [pollEvents, Nat.add_assoc, Nat.add_comm 1 k]
      omega

theorem child_process_kill_and_wait_eq (os : OS) (sig : Int) (s : State)
    (hp : 0 < s.childpid) :
    child_process_kill_and_wait os sig s =
      kill_and_wait_loop os (MAX_WAIT_MICROSECS / SLEEP_TIME_MICROSECS) 1
        (signalled os sig s) := by
  unfold child_process_kill_and_wait
  simp [hp, emit, signalled]

/-- Claim C15: with a started child, `child_process_kill_and_wait` sends the
signal once and then sleeps 10 ms and polls, at most 500 times.  If all 500
polls report the child running it returns -1 after exactly 500 polls; if the
poll of index `k` (counted from 0, `k < 500`) is the first that does not, it
returns the exit code of that poll after exactly `k + 1` polls.  In every
case it returns, having sent one signal and made at most 500 polls, and the
result is -1 exactly when all 500 polls reported the child running. -/
theorem kill_and_wait_bounded (os : OS) (sig : Int) (s : State) (hp : 0 < s.childpid) :
    MAX_WAIT_MICROSECS / SLEEP_TIME_MICROSECS = 500 ∧
      ((∀ j, j < 500 → (os.waitpid (s.nwait + j)).ret = 0) →
        child_process_kill_and_wait os sig s =
          .ok (-1)
            { signalled os sig s with
              nwait := s.nwait + 500,
              trace := (signalled os sig s).trace ++ pollEvents os s.childpid s.nwait 500 }) ∧
      (∀ k, k < 500 → (∀ j, j < k → (os.waitpid (s.nwait + j)).ret = 0) →
        (os.waitpid (s.nwait + k)).ret ≠ 0 →
        0 ≤ statusCode (os.waitpid (s.nwait + k)).status ∧
          child_process_kill_and_wait os sig s =
            .ok (statusCode (os.waitpid (s.nwait + k)).status)
              { signalled os sig s with
                nwait := s.nwait + (k + 1),
                trace := (signalled os sig s).trace ++
                  pollEvents os s.childpid s.nwait (k + 1) ++
                  [.exited (statusCode (os.waitpid (s.nwait + k)).status)] }) ∧
      (∃ r s1, child_process_kill_and_wait os sig s = .ok r s1 ∧
        s1.nwait ≤ s.nwait + 500 ∧ s1.nkill = s.nkill + 1 ∧
        (r = -1 ↔ ∀ j, j < 500 → (os.waitpid (s.nwait + j)).ret = 0)) := by
  have hN : MAX_WAIT_MICROSECS / SLEEP_TIME_MICROSECS = 500 := by decide
  have h1 : (∀ j, j < 500 → (os.waitpid (s.nwait + j)).ret = 0) →
      child_process_kill_and_wait os sig s =
        .ok (-1)
          { signalled os sig s with
            nwait := s.nwait + 500,
            trace := (signalled os sig s).trace ++ pollEvents os s.childpid s.nwait 500 } := by
    intro hrun
    rw [child_process_kill_and_wait_eq os sig s hp, hN]
    exact kill_and_wait_loop_runs_out os 500 1 (signalled os sig s) hp (by decide) (by decide)
      hrun
  have h2 : ∀ k, k < 500 → (∀ j, j < k → (os.waitpid (s.nwait + j)).ret = 0) →
      (os.waitpid (s.nwait + k)).ret ≠ 0 →
      0 ≤ statusCode (os.waitpid (s.nwait + k)).status ∧
        child_process_kill_and_wait os sig s =
          .ok (statusCode (os.waitpid (s.nwait + k)).status)
            { signalled os sig s with
              nwait := s.nwait + (k + 1),
              trace := (signalled os sig s).trace ++
                pollEvents os s.childpid s.nwait (k + 1) ++
                [.exited (statusCode (os.waitpid (s.nwait + k)).status)] } := by
    intro k hk hrun hterm
    refine ⟨status_code_nonneg _, ?_⟩
    rw [child_process_kill_and_wait_eq os sig s hp, hN]
    exact kill_and_wait_loop_first os 500 1 (signalled os sig s) k hp (by decide) (by decide)
      hk hrun hterm
  refine ⟨hN, h1, h2, ?_⟩
  by_cases hall : ∀ j, j < 500 → (os.waitpid (s.nwait + j)).ret = 0
  · exact ⟨_, _, h1 hall, Nat.le_refl _, rfl, Iff.intro (fun _ => hall) (fun _ => rfl)⟩
  · have hex : ∃ j, j < 500 ∧ (os.waitpid (s.nwait + j)).ret ≠ 0 := by
      by_contra hne
      apply hall
      intro j hj
      by_contra h0
      exact hne ⟨j, hj, h0⟩
    classical
    have hk := Nat.find_spec hex
    have hmin : ∀ j, j < Nat.find hex → (os.waitpid (s.nwait + j)).ret = 0 := by
      intro j hj
      by_contra h0
      exact Nat.find_min hex hj ⟨by omega, h0⟩
    obtain ⟨hnn, he⟩ := h2 (Nat.find hex) hk.1 hmin hk.2
    refine ⟨_, _, he, ?_, rfl, ?_⟩
    · show s.nwait + (Nat.find hex + 1) ≤ s.nwait + 500
      omega
    · constructor
      · intro hr
        omega
      · intro h
        exact absurd h hall

theorem kill_and_wait_bounded_witness :
    0 ≤ statusCode (osThirdPoll.waitpid (sRunning.nwait + 2)).status ∧
      child_process_kill_and_wait osThirdPoll SIGTERM sRunning =
        .ok (statusCode (osThirdPoll.waitpid (sRunning.nwait + 2)).status)
          { signalled osThirdPoll SIGTERM sRunning with
            nwait := sRunning.nwait + (2 + 1),
            trace := (signalled osThirdPoll SIGTERM sRunning).trace ++
              pollEvents osThirdPoll sRunning.childpid sRunning.nwait (2 + 1) ++
              [.exited (statusCode (osThirdPoll.waitpid (sRunning.nwait + 2)).status)] } :=
  (kill_and_wait_bounded osThirdPoll SIGTERM sRunning (by decide)).2.2.1 2 (by decide)
    (by decide) (by decide)

/-! ## Progress dots -/

theorem pollEvents_no_dot (os : OS) (pid : Int) (start n : Nat) :
    (pollEvents os pid start n).filter Event.isDot = [] := by
  induction n generalizing start with
  | zero => rfl
  | succ n ih => simp [pollEvents, Event.isDot, ih]

/-- Claim C20, refuted on the code: a kill-and-wait that runs to its ceiling,
all 500 polls reporting the child running, returns -1 and has written no
progress dot: `loops` never exceeds 500, so `loops % 100000` is never 0. -/
theorem no_progress_dot (os : OS) (sig : Int) (s : State) (hp : 0 < s.childpid)
    (hrun : ∀ j, j < 500 → (os.waitpid (s.nwait + j)).ret = 0) :
    ∃ s1, child_process_kill_and_wait os sig s = .ok (-1) s1 ∧
      s1.nwait = s.nwait + 500 ∧
      s1.trace.filter Event.isDot = s.trace.filter Event.isDot := by
  have hN : MAX_WAIT_MICROSECS / SLEEP_TIME_MICROSECS = 500 := by decide
  refine ⟨{ signalled os sig s with
      nwait := s.nwait + 500,
      trace := (signalled os sig s).trace ++ pollEvents os s.childpid s.nwait 500 },
    ?_, rfl, ?_⟩
  · rw [child_process_kill_and_wait_eq os sig s hp, hN]
    exact kill_and_wait_loop_runs_out os 500 1 (signalled os sig s) hp (by decide) (by decide)
      hrun
  · simp [signalled, List.filter_append, pollEvents_no_dot, Event.isDot]

theorem no_progress_dot_witness :
    ∃ s1, child_process_kill_and_wait osStubborn SIGKILL sRunning = .ok (-1) s1 ∧
      s1.nwait = sRunning.nwait + 500 ∧
      s1.trace.filter Event.isDot = sRunning.trace.filter Event.isDot :=
  no_progress_dot osStubborn SIGKILL sRunning (by decide) (fun _ _ => rfl)

/-! ## Failures of the operating system -/

theorem Clean.append {a b : List Event} (ha : Clean a) (hb : Clean b) : Clean (a ++ b) := by
  intro e he
  rcases List.mem_append.mp he with h | h
  · exact ha e h
  · exact hb e h

theorem Clean.of_adds {ks : List Kind} {s1 s2 : State} (h : Adds ks s1 s2)
    (hs : Kind.stat ∉ ks) (hf : Kind.fork ∉ ks) (hc : Clean s1.trace) : Clean s2.trace := by
  obtain ⟨d, e1, hd⟩ := h
  rw [e1]
  apply hc.append
  intro e he
  have hk := hd e he
  cases e <;> first
    | rfl
    | exact absurd hk hs
    | exact absurd hk hf

theorem FailStop.of_clean {α : Type} {r : Res α} (h : Clean r.state.trace) : FailStop r :=
  Or.inl h

theorem FailStop.clean_of_ok {α : Type} {a : α} {s : State} (h : FailStop (Res.ok a s)) :
    Clean s.trace := by
  rcases h with h | ⟨h, _⟩
  · exact h
  · cases h

theorem mtime_failstop (os : OS) (path : Str) (s : State) (hc : Clean s.trace) :
    FailStop (mtime os path s) := by
  unfold mtime
  cases hs : os.stat s.nstat path with
  | ok t =>
    apply FailStop.of_clean
    simp only [Res.state, emit]
    exact hc.append (by intro e he; simp at he; subst he; rfl)
  | enoent =>
    apply FailStop.of_clean
    simp only [Res.state, emit]
    exact hc.append (by intro e he; simp at he; subst he; rfl)
  | error =>
    refine Or.inr ⟨rfl, s.trace, .stat path .error, "stat".toList, ?_, rfl, hc⟩
    simp [Res.state, die, emit]

theorem register_watch_failstop (os : OS) (raw : Str) (s : State) (hc : Clean s.trace) :
    FailStop (register_watch os raw s) := by
  unfold register_watch
  by_cases h : s.watches.length = MAX_WATCHES
  · simp only [h, if_true]
    apply FailStop.of_clean
    simp only [die, Res.state, emit]
    exact hc.append (by intro e he; simp at he; subst he; rfl)
  · simp only [h, if_false]
    generalize hp : (match strrchr raw ':' with
      | some i => raw.take i
      | none => raw) = path
    generalize hg : (match strrchr raw ':' with
      | some i => action_by_name (raw.drop (i + 1))
      | none => SIGKILL) = sig
    have hm := mtime_failstop os path
      { s with watches := s.watches ++ [{ path := path, sig := sig, recent_mtime := 0 }] } hc
    cases hr : mtime os path
      { s with watches := s.watches ++ [{ path := path, sig := sig, recent_mtime := 0 }] } with
    | ok m s2 =>
      rw [hr] at hm
      exact FailStop.of_clean hm.clean_of_ok
    | halt hh s2 =>
      rw [hr] at hm
      exact hm

theorem registerAll_failstop (os : OS) (vec : List (Option Str)) (s : State)
    (hc : Clean s.trace) : FailStop (registerAll os vec s) := by
  induction vec generalizing s with
  | nil => exact FailStop.of_clean hc
  | cons a rest ih =>
    cases a with
    | none => exact FailStop.of_clean hc
    | some w =>
      have hstep := register_watch_failstop os w s hc
      unfold registerAll
      cases hr : register_watch os w s with
      | ok u s1 =>
        rw [hr] at hstep
        exact ih s1 hstep.clean_of_ok
      | halt hh s1 =>
        rw [hr] at hstep
        exact hstep

theorem startup_failstop (os : OS) (argv : List Str) : FailStop (startup os argv) := by
  unfold startup
  simp only
  split
  · exact registerAll_failstop os _ _ (by intro e he; simp [State.init] at he)
  · apply FailStop.of_clean
    intro e he
    simp [usage, Res.state, emit, State.init] at he
    subst he
    rfl
  · apply FailStop.of_clean
    intro e he
    simp [usage, Res.state, emit, State.init] at he
    subst he
    rfl

theorem run_watch_failstop (os : OS) (i : Nat) (s : State) (hc : Clean s.trace) :
    FailStop (run_watch os i s) := by
  unfold run_watch
  cases s.watches.get? i with
  | none => exact FailStop.of_clean hc
  | some w =>
    have hm := mtime_failstop os w.path s hc
    simp only
    cases hr : mtime os w.path s with
    | ok m s1 =>
      rw [hr] at hm
      exact FailStop.of_clean hm.clean_of_ok
    | halt hh s1 =>
      rw [hr] at hm
      exact hm

theorem run_watches_from_failstop (os : OS) (n i : Nat) (s : State) (hc : Clean s.trace) :
    FailStop (run_watches_from os n i s) := by
  induction n generalizing i s with
  | zero => exact FailStop.of_clean hc
  | succ n ih =>
    have hw := run_watch_failstop os i s hc
    unfold run_watches_from
    cases hr : run_watch os i s with
    | ok b s1 =>
      rw [hr] at hw
      cases b with
      | true => exact FailStop.of_clean hw.clean_of_ok
      | false => exact ih (i + 1) s1 hw.clean_of_ok
    | halt hh s1 =>
      rw [hr] at hw
      exact hw

theorem child_process_start_failstop (os : OS) (s : State) (hc : Clean s.trace) :
    FailStop (child_process_start os s) := by
  unfold child_process_start
  cases s.SUBCOMMAND with
  | none => exact FailStop.of_clean hc
  | some cmd =>
    simp only
    by_cases h1 : os.fork s.nfork = -1
    · simp only [h1, if_true]
      refine Or.inr ⟨rfl, s.trace, .fork (-1), "fork".toList, ?_, by decide, hc⟩
      simp [Res.state, die, emit]
    · have hcl : Clean (s.trace ++ [Event.fork (os.fork s.nfork)]) := by
        apply hc.append
        intro e he
        simp at he
        subst he
        simpa [Event.isFailure] using h1
      simp only [h1, if_false]
      split
      · split
        · apply FailStop.of_clean
          simp only [Res.state, emit]
          exact hcl.append (by intro e he; simp at he; subst he; rfl)
        · apply FailStop.of_clean
          simp only [die, Res.state, emit]
          exact (hcl.append (by intro e he; simp at he; subst he; rfl)).append
            (by intro e he; simp at he; subst he; rfl)
      · exact FailStop.of_clean hcl

theorem restart_failstop (os : OS) (s : State) (hc : Clean s.trace) :
    FailStop (restart os s) := by
  have h1 := Clean.of_adds (child_process_kill_and_wait_adds os SIGTERM s) (by simp) (by simp) hc
  unfold restart
  cases hr : child_process_kill_and_wait os SIGTERM s with
  | halt hh s1 =>
    rw [hr] at h1
    exact FailStop.of_clean h1
  | ok r s1 =>
    rw [hr] at h1
    simp only [Res.state] at h1
    simp only
    split
    · exact child_process_start_failstop os s1 h1
    · have h2 := Clean.of_adds (child_process_kill_and_wait_adds os SIGKILL s1) (by simp)
        (by simp) h1
      cases hr2 : child_process_kill_and_wait os SIGKILL s1 with
      | halt hh s2 =>
        rw [hr2] at h2
        exact FailStop.of_clean h2
      | ok r2 s2 =>
        rw [hr2] at h2
        exact child_process_start_failstop os s2 h2

theorem dispatch_failstop (os : OS) (sig : Int) (s : State) (hc : Clean s.trace) :
    FailStop (dispatch os sig s) := by
  unfold dispatch
  split
  · exact restart_failstop os s hc
  · exact FailStop.of_clean
      (Clean.of_adds (child_process_kill_adds os sig s) (by simp) (by simp) hc)

theorem tick_failstop (os : OS) (s : State) (hc : Clean s.trace) : FailStop (tick os s) := by
  have h1 := Clean.of_adds (child_process_exitcode_adds os s) (by simp) (by simp) hc
  unfold tick
  cases hr : child_process_exitcode os s with
  | halt hh s1 =>
    rw [hr] at h1
    exact FailStop.of_clean h1
  | ok exitcode s1 =>
    rw [hr] at h1
    simp only [Res.state] at h1
    simp only
    split
    · exact FailStop.of_clean h1
    · have h2 : Clean (emit (.usleep SLEEP_TIME_MICROSECS) s1).trace :=
        h1.append (by intro e he; simp at he; subst he; rfl)
      have hw := run_watches_from_failstop os (watch_count (emit (.usleep SLEEP_TIME_MICROSECS) s1))
        0 (emit (.usleep SLEEP_TIME_MICROSECS) s1) h2
      have hw2 : FailStop (run_watches os (emit (.usleep SLEEP_TIME_MICROSECS) s1)) := hw
      cases hq : run_watches os (emit (.usleep SLEEP_TIME_MICROSECS) s1) with
      | halt hh s2 =>
        rw [hq] at hw2
        exact hw2
      | ok r s2 =>
        rw [hq] at hw2
        have h3 := hw2.clean_of_ok
        cases r with
        | none => exact FailStop.of_clean h3
        | some i =>
          simp only
          cases s2.watches.get? i with
          | none => exact FailStop.of_clean h3
          | some w => exact dispatch_failstop os w.sig s2 h3

theorem loop_failstop (os : OS) (fuel : Nat) (s : State) (hc : Clean s.trace) :
    FailStop (loop os fuel s) := by
  induction fuel generalizing s with
  | zero => exact FailStop.of_clean hc
  | succ n ih =>
    have ht := tick_failstop os s hc
    unfold loop
    cases hr : tick os s with
    | ok u s1 =>
      rw [hr] at ht
      exact ih s1 ht.clean_of_ok
    | halt hh s1 =>
      rw [hr] at ht
      exact ht

theorem main_failstop (os : OS) (argv : List Str) (fuel : Nat) :
    FailStop (main os argv fuel) := by
  have h0 := startup_failstop os argv
  unfold main
  cases hs : startup os argv with
  | halt hh s =>
    rw [hs] at h0
    exact h0
  | ok u s =>
    rw [hs] at h0
    have h1 := child_process_start_failstop os s h0.clean_of_ok
    simp only
    cases hc : child_process_start os s with
    | halt hh s1 =>
      rw [hc] at h1
      exact h1
    | ok u1 s1 =>
      rw [hc] at h1
      exact loop_failstop os fuel s1 h1.clean_of_ok

theorem failure_is_last (pre1 pre post : List Event) (e e1 x : Event)
    (h : pre ++ e :: post = pre1 ++ [e1, x]) (he : e.isFailure = true)
    (hx : x.isFailure = false) (hc : Clean pre1) : post = [x] := by
  induction pre1 generalizing pre with
  | nil =>
    cases pre with
    | nil =>
      simp only [List.nil_append, List.cons.injEq] at h
      exact h.2
    | cons a pre =>
      cases pre with
      | nil =>
        simp only [List.cons_append, List.nil_append, List.cons.injEq] at h
        rw [h.2.1, hx] at he
        cases he
      | cons b pre =>
        have := congrArg List.length h
        simp at this
  | cons p ps ih =>
    cases pre with
    | nil =>
      simp only [List.nil_append, List.cons_append, List.cons.injEq] at h
      have := hc p (List.mem_cons_self _ _)
      rw [← h.1, he] at this
      cases this
    | cons a pre =>
      simp only [List.cons_append, List.cons.injEq] at h
      exact ih pre h.2 (fun y hy => hc y (List.mem_cons_of_mem _ hy))

theorem childpid_pos_after_scan (os : OS) (s s1 s2 : State) (r : Option Nat)
    (h1 : child_process_exitcode os s = .ok (-1) s1)
    (h2 : run_watches os (emit (.usleep SLEEP_TIME_MICROSECS) s1) = .ok r s2) :
    0 < s2.childpid := by
  by_cases hp : 0 < s.childpid
  · rw [child_process_exitcode_eq os s hp] at h1
    injection h1 with _ e2
    have hf := (run_watches_frame os (emit (.usleep SLEEP_TIME_MICROSECS) s1)).1
    rw [h2] at hf
    simp only [Res.state] at hf
    rw [hf, ← e2]
    exact hp
  · rw [child_process_exitcode_abort os s hp] at h1
    cases h1

/-- Claim C18, refuted on the code: when `waitpid` fails (returns -1) the
program does not exit with status 127; the poll is taken as the report of a
terminated child and the program exits with whatever code the untouched
status word yields, 0 or 85 here.  And when the `kill` of kill-and-wait
fails, the function goes on to sleep and poll and returns the exit code of
the child instead of ending the program. -/
theorem wait_failure_not_fatal :
    osWaitFails.waitpid 0 = { ret := -1, status := 0 } ∧
      main osWaitFails argvSleep 1 =
        .halt (.exit 0) (main osWaitFails argvSleep 1).state ∧
      (main osWaitFails argvSleep 1).state.trace =
        [.stat "f".toList .enoent, .fork 77, .waitpid 77 { ret := -1, status := 0 }] ∧
      main osWaitFailsGarbage argvSleep 1 =
        .halt (.exit 85) (main osWaitFailsGarbage argvSleep 1).state ∧
      child_process_kill_and_wait osKillDenied SIGTERM sRunning =
        .ok 3
          { sRunning with
            nkill := 1, nwait := 1,
            trace := [.fork 77, .signalling 15 77, .kill 77 15 (-1), .usleep 10000,
                      .waitpid 77 { ret := 77, status := exitedStatus 3 }, .exited 3] } := by
  decide

/-- The failures that are fatal on the code: in every run, a `fork` that fails
or a `stat` that fails with an error other than ENOENT is followed by its
`perror` message and nothing else, and the program has exited with status
127; a tick whose signal-delivery action finds that `kill` fails exits with
status 127, and so does the loop.  A `waitpid` that does not return 0 is
always taken as the report of a terminated child. -/
theorem os_failures_fatal (os : OS) :
    (∀ (argv : List Str) (fuel : Nat) (pre post : List Event) (e : Event),
        (main os argv fuel).state.trace = pre ++ e :: post → e.isFailure = true →
        (∃ m, post = [.perror m]) ∧ (main os argv fuel).halted = some (.exit 127)) ∧
      (∀ (s s1 s2 : State) (i : Nat) (w : Watch),
        child_process_exitcode os s = .ok (-1) s1 →
        run_watches os (emit (.usleep SLEEP_TIME_MICROSECS) s1) = .ok (some i) s2 →
        s2.watches.get? i = some w → w.sig ≠ ACTION_RESTART →
        os.kill s2.nkill s2.childpid w.sig ≠ 0 →
        ∃ s3, tick os s = .halt (.exit 127) s3 ∧
          ∀ fuel, loop os (fuel + 1) s = .halt (.exit 127) s3) ∧
      (∀ s : State, 0 < s.childpid → (os.waitpid s.nwait).ret ≠ 0 →
        ∃ s1, child_process_exitcode os s =
            .ok (statusCode (os.waitpid s.nwait).status) s1 ∧
          tick os s = .halt (.exit (statusCode (os.waitpid s.nwait).status)) s1) := by
  refine ⟨?_, ?_, ?_⟩
  · intro argv fuel pre post e htr he
    rcases main_failstop os argv fuel with hcl | ⟨hh, pre1, e1, m, htr1, _, hc1⟩
    · have := hcl e (by rw [htr]; simp)
      rw [he] at this
      cases this
    · refine ⟨⟨m, ?_⟩, hh⟩
      rw [htr] at htr1
      exact failure_is_last pre1 pre post e e1 (.perror m) htr1 he rfl hc1
  · intro s s1 s2 i w h1 h2 h3 hsig hkill
    have hp := childpid_pos_after_scan os s s1 s2 (some i) h1 h2
    have ht := tick_dispatch os s s1 s2 i w h1 h2 h3
    have hd : dispatch os w.sig s2 =
        .halt (.exit 127) (emit (.perror "kill".toList)
          (emit (.kill s2.childpid w.sig (os.kill s2.nkill s2.childpid w.sig))
            { emit (.signalling w.sig s2.childpid) s2 with nkill := s2.nkill + 1 })) := by
      simp only [dispatch, hsig, if_false, child_process_kill, hp, if_true, emit, die]
      simp [hkill]
    refine ⟨_, ht.trans hd, fun fuel => ?_⟩
    simp only [loop, ht.trans hd]
  · intro s hp hr
    have he : child_process_exitcode os s =
        .ok (statusCode (os.waitpid s.nwait).status)
          (emit (.waitpid s.childpid (os.waitpid s.nwait)) { s with nwait := s.nwait + 1 }) := by
      rw [child_process_exitcode_eq os s hp]
      simp [hr, statusCode]
    exact ⟨_, he, (tick_exit os s _ _ he (status_code_nonneg _)).1⟩

theorem os_failures_fatal_witness :
    (∃ m, [Event.perror "fork".toList] = [Event.perror m]) ∧
      (main osForkFails argvSleep 3).halted = some (.exit 127) :=
  (os_failures_fatal osForkFails).1 argvSleep 3 [.stat "f".toList .enoent]
    [.perror "fork".toList] (.fork (-1)) (by decide) (by decide)

end Waitnsee
